import Mathlib

/-!
Verification of the speedskating-tools core (`src/topn.py`).

The Python module is shallowly embedded: parsed times are exact decimal
numbers (a numerator together with a power-of-ten exponent; Python's
floats carry decimal values parsed from the result strings, and the
pipeline only compares and rounds them, which we do exactly), XML
documents are the list of their result nodes, and the HTTP layer is an
oracle function from (season, distance, requested max count) to either
an error message or a parsed document.  Parameters that are fixed for a
whole query (gender, age group, country, timeout) only influence which
oracle models the session, so they are absorbed into the oracle.  The
polite sleep between fetches is timing-only and has no counterpart
here.
-/

namespace Topn

deriving instance DecidableEq for Except

/-- An exact nonnegative decimal number `num / 10 ^ exp`.  This is the
value carried by the Python floats produced by `parse_time_to_seconds`:
every time the parser builds is a decimal fraction. -/
structure Dec where
  num : Nat
  exp : Nat
  deriving DecidableEq

/-- The rational value represented by a `Dec`. -/
def Dec.toQ (d : Dec) : ℚ :=
  (d.num : ℚ) / 10 ^ d.exp

/-- Numeric order on decimals, by cross multiplication; shown below to
agree with `≤` on the represented rationals. -/
def Dec.le (a b : Dec) : Prop :=
  a.num * 10 ^ b.exp ≤ b.num * 10 ^ a.exp

/-- Strict numeric order on decimals. -/
def Dec.lt (a b : Dec) : Prop :=
  a.num * 10 ^ b.exp < b.num * 10 ^ a.exp

instance (a b : Dec) : Decidable (Dec.le a b) :=
  inferInstanceAs (Decidable (_ ≤ _))

instance (a b : Dec) : Decidable (Dec.lt a b) :=
  inferInstanceAs (Decidable (_ < _))

/-- Whitespace characters stripped by Python `str.strip()` and matched
by the regex class used in `parse_time_to_seconds`. -/
def pySpace (c : Char) : Bool :=
  c = ' ' || c = '\t' || c = '\n' || c = '\r' || c = '\x0b' || c = '\x0c'

/-- Drop characters satisfying `p` from both ends of a list
(Python `str.strip(chars)`). -/
def stripEnds (p : Char → Bool) (l : List Char) : List Char :=
  ((l.dropWhile p).reverse.dropWhile p).reverse

/-- Python `str.strip()` on the character list. -/
def pyStripL (l : List Char) : List Char :=
  stripEnds pySpace l

/-- Python `str.strip()`. -/
def pyStrip (s : String) : String :=
  ⟨pyStripL s.data⟩

/-- Numeric value of a digit string, as Python `int` on a digit-only
string (leading zeros allowed). -/
def digitsVal (l : List Char) : Nat :=
  l.foldl (fun a c => a * 10 + (c.toNat - '0'.toNat)) 0

/-- Full match of the regex `\d+`. -/
def allDigits (l : List Char) : Bool :=
  !l.isEmpty && l.all Char.isDigit

/-- Full match of the regex `\d+(\.\d+)?`. -/
def decMatch (l : List Char) : Bool :=
  let a := l.takeWhile Char.isDigit
  !a.isEmpty &&
    match l.drop a.length with
    | [] => true
    | '.' :: f => !f.isEmpty && f.all Char.isDigit
    | _ => false

/-- Exact value of a string matching `\d+(\.\d+)?` (Python `float(...)`
on such a string): integer part `a` and fraction digits `f` denote
`a + f / 10 ^ |f|`, i.e. `(a * 10 ^ |f| + f) / 10 ^ |f|`. -/
def decValue (l : List Char) : Dec :=
  let a := l.takeWhile Char.isDigit
  match l.drop a.length with
  | '.' :: f => { num := digitsVal a * 10 ^ f.length + digitsVal f, exp := f.length }
  | _ => { num := digitsVal a, exp := 0 }

/-- Full match of `(\d+)\.(\d{2})<sep>(\d{2})`, returning
`minutes*60 + seconds + hundredths/100` as an exact decimal with two
fraction digits.  The first group is forced to be the maximal digit run
because `\d+` cannot contain the following dot. -/
def matchMinSecCc (sep : Char) (l : List Char) : Option Dec :=
  let a := l.takeWhile Char.isDigit
  match l.drop a.length with
  | '.' :: b1 :: b2 :: s :: c1 :: c2 :: [] =>
      if !a.isEmpty && b1.isDigit && b2.isDigit && s = sep && c1.isDigit && c2.isDigit then
        some { num := (digitsVal a * 60 + digitsVal [b1, b2]) * 100 + digitsVal [c1, c2],
               exp := 2 }
      else none
  | _ => none

/-- The `m:ss` branch of the parser: after normalizing commas to dots the
string is split on every colon; exactly two parts are required, the
first matching `\d+` and the second `\d+(\.\d+)?`; the value is
`minutes*60` plus the decimal seconds. -/
def colonCase (l : List Char) : Option Dec :=
  let s2 := l.map (fun c => if c = ',' then '.' else c)
  match s2.splitOn ':' with
  | [p0, p1] =>
      if allDigits p0 && decMatch p1 then
        let dv := decValue p1
        some { num := digitsVal p0 * 60 * 10 ^ dv.exp + dv.num, exp := dv.exp }
      else none
  | _ => none

/-- The plain-seconds branch: commas normalized to dots, then the whole
string must match `\d+(\.\d+)?`. -/
def plainCase (l : List Char) : Option Dec :=
  let s2 := l.map (fun c => if c = ',' then '.' else c)
  if decMatch s2 then some (decValue s2) else none

/-- Embedding of `parse_time_to_seconds` (topn.py lines 56-111): empty
input, placeholder dashes and anything containing a letter are
unparseable; all whitespace is then removed and the four pattern tiers
are tried in order. -/
def parse_time_to_seconds (t : String) : Option Dec :=
  if t = "" then none
  else
    let l0 := stripEnds (fun c => c = '"') (pyStripL t.data)
    if l0 = "--".data ∨ l0 = "-".data ∨ l0 = [] then none
    else if l0.any Char.isAlpha then none
    else
      let l := l0.filter (fun c => !pySpace c)
      match matchMinSecCc ',' l with
      | some v => some v
      | none =>
        match matchMinSecCc '.' l with
        | some v => some v
        | none =>
          if l.contains ':' then colonCase l else plainCase l

/-- Helper for Python `str.split()`: accumulate the current word in
reverse and emit maximal nonempty runs of non-whitespace characters. -/
def wordsAux (cur : List Char) : List Char → List (List Char)
  | [] => if cur.isEmpty then [] else [cur.reverse]
  | c :: l =>
      if pySpace c then
        if cur.isEmpty then wordsAux [] l else cur.reverse :: wordsAux [] l
      else wordsAux (c :: cur) l

/-- Embedding of `normalize_name` (topn.py line 52):
`" ".join(s.strip().lower().split())` (ASCII case folding). -/
def normalize_name (s : String) : String :=
  ⟨List.intercalate [' '] (wordsAux [] ((pyStripL s.data).map Char.toLower))⟩

/-- Nested `<skater>` element of a result node; each field models
`findtext` (absent element gives `none`). -/
structure SkaterEl where
  id : Option String
  givenname : Option String
  familyname : Option String
  givennative : Option String
  familynative : Option String
  deriving DecidableEq

/-- One `<result>` node of the fetched document. -/
structure ResultEntry where
  time : Option String
  date : Option String
  event : Option String
  skater : Option SkaterEl
  deriving DecidableEq

/-- Embedding of `build_skater_name` (topn.py lines 114-123). -/
def build_skater_name (sk : SkaterEl) : String :=
  let given := pyStrip (sk.givenname.getD "")
  let family := pyStrip (sk.familyname.getD "")
  let given2 := if given = "" ∧ family = "" then pyStrip (sk.givennative.getD "") else given
  let family2 := if given = "" ∧ family = "" then pyStrip (sk.familynative.getD "") else family
  let name := pyStrip ⟨List.intercalate [' ']
    (([given2.data, family2.data]).filter (fun p => !p.isEmpty))⟩
  if name = "" then "(unknown)" else name

/-- Embedding of the `ResultRow` dataclass (topn.py lines 22-31),
with the resolved time as an exact decimal. -/
structure ResultRow where
  age : String
  distance : Nat
  date : String
  event : String
  skater_name : String
  skater_id : String
  time_str : String
  time_seconds : Dec
  deriving DecidableEq

/-- Embedding of `extract_rows` (topn.py lines 174-205): one `ResultRow`
per result node whose time text parses; unparseable entries are dropped. -/
def extract_rows (root : List ResultEntry) (ageclass : String) (distance : Nat) :
    List ResultRow :=
  root.filterMap (fun res =>
    let time_str := pyStrip (res.time.getD "")
    let date := pyStrip (res.date.getD "")
    let event := pyStrip (res.event.getD "")
    let ids :=
      match res.skater with
      | none => ("", "(unknown)")
      | some sk => (pyStrip (sk.id.getD ""), build_skater_name sk)
    match parse_time_to_seconds time_str with
    | none => none
    | some secs => some
        { age := ageclass, distance := distance, date := date, event := event,
          skater_name := ids.2, skater_id := ids.1,
          time_str := time_str, time_seconds := secs })

/-- Embedding of `parse_ageclass` (topn.py lines 34-49): strip, demand
length at least two, upper-case the first character and demand M or F,
return the lower-cased gender letter with the stripped remainder. -/
def parse_ageclass (ageclass : String) : Except String (String × String) :=
  match pyStripL ageclass.data with
  | [] => .error "Ageclass pitää olla esim. MB2 / FA2"
  | [_] => .error "Ageclass pitää olla esim. MB2 / FA2"
  | c :: rest =>
      let g := c.toUpper
      if g ≠ 'M' ∧ g ≠ 'F' then
        .error "Ageclass pitää alkaa M tai F, esim. MB2 tai FA2"
      else
        let age : String := ⟨pyStripL rest⟩
        if age = "" then .error "Ikäluokka puuttuu (esim. A2/B2/...)"
        else .ok (⟨[g.toLower]⟩, age)

/-- `ALLOWED_DISTANCES` (topn.py line 19). -/
def ALLOWED_DISTANCES : List Nat :=
  [300, 500, 1000, 1500, 3000, 5000, 10000]

/-- The effective per-season fetch size (topn.py line 247):
`max(per_season_top, min(300, top_n * 3))`. -/
def per_season_fetch (per_season_top top_n : Nat) : Nat :=
  max per_season_top (min 300 (top_n * 3))

/-- Lookup in an association-list model of a Python dict. -/
def dictGet {K V : Type} [DecidableEq K] (m : List (K × V)) (k : K) : Option V :=
  (m.find? (fun kv => decide (kv.1 = k))).map (fun kv => kv.2)

/-- Python dict assignment: replace in place if the key is present
(its position is kept), otherwise append at the end (insertion order). -/
def dictSet {K V : Type} [DecidableEq K] (m : List (K × V)) (k : K) (v : V) :
    List (K × V) :=
  if m.any (fun kv => decide (kv.1 = k)) then
    m.map (fun kv => if kv.1 = k then (k, v) else kv)
  else m ++ [(k, v)]

/-- The dedup map of the Aggregator: per `(distance, skater key)` the
best row so far, in Python dict insertion order. -/
abbrev DedupMap : Type :=
  List ((Nat × String) × ResultRow)

/-- Skater part of the dedup key (topn.py line 279):
`row.skater_id.strip() or f"name:..."`. -/
def skKeyOf (row : ResultRow) : String :=
  let sid := pyStrip row.skater_id
  if sid = "" then "name:" ++ normalize_name row.skater_name else sid

/-- The dedup key of a row, as built at topn.py line 280 (the loop
variable `distance` always equals the row's distance field). -/
def dedupKey (row : ResultRow) : Nat × String :=
  (row.distance, skKeyOf row)

/-- One dedup update (topn.py lines 278-283): store the row under its
key if the slot is empty or the new resolved time is strictly smaller. -/
def stepRow (d : Nat) (m : DedupMap) (row : ResultRow) : DedupMap :=
  let key := (d, skKeyOf row)
  match dictGet m key with
  | none => dictSet m key row
  | some prev => if Dec.lt row.time_seconds prev.time_seconds then dictSet m key row else m

/-- `stepRow` with the key's distance taken from the row itself; equal to
`stepRow d` on rows extracted under distance context `d`. -/
def dedupStep (m : DedupMap) (row : ResultRow) : DedupMap :=
  stepRow row.distance m row

/-- Python `sorted` on the distance list (stable; on `Nat` plain
ascending order). -/
def sortNat (l : List Nat) : List Nat :=
  List.insertionSort (fun a b => a ≤ b) l

/-- The inclusive season range `range(start, end + 1)` after the
`min`/`max` normalization of topn.py lines 233-234. -/
def seasonList (a b : Int) : List Int :=
  (List.range (b + 1 - a).toNat).map (fun i => a + (i : Int))

/-- The rows contributed by one (season, distance) cell: the extracted
rows of the fetched document, or nothing when the fetch failed. -/
def cellRows (fetch : Int → Nat → Nat → Except String (List ResultEntry))
    (ac : String) (n : Nat) (d : Nat) (s : Int) : List ResultRow :=
  match fetch s d n with
  | .ok root => extract_rows root ac d
  | .error _ => []

/-- The error-list entry recorded for one failed (season, distance) cell
(topn.py line 269): `f"season={season}: {e}"`. -/
def cellErr (fetch : Int → Nat → Nat → Except String (List ResultEntry))
    (n : Nat) (d : Nat) (s : Int) : Option String :=
  match fetch s d n with
  | .ok _ => none
  | .error e => some ("season=" ++ toString s ++ ": " ++ e)

/-- Mutable state of the fetch loop: the dedup map, the per-distance
error lists and the per-distance raw-row counters. -/
structure AggState where
  best : DedupMap
  errs : Nat → List String
  fetched : Nat → Nat

/-- Initial aggregation state (empty dict, every distance starting with
an empty error list and a zero counter, as the comprehensions of
topn.py lines 252-253 set up). -/
def initState : AggState :=
  { best := [], errs := fun _ => [], fetched := fun _ => 0 }

/-- One iteration of the fetch loop body (topn.py lines 256-286): on
failure append the tagged message to this distance's error list; on
success extract rows, skip if none, otherwise bump the raw counter and
run the dedup updates. -/
def processCell (fetch : Int → Nat → Nat → Except String (List ResultEntry))
    (ac : String) (n : Nat) (st : AggState) (d : Nat) (s : Int) : AggState :=
  match fetch s d n with
  | .error e =>
      { st with errs := fun x =>
          if x = d then st.errs d ++ ["season=" ++ toString s ++ ": " ++ e] else st.errs x }
  | .ok root =>
      let rows := extract_rows root ac d
      if rows.isEmpty then st
      else
        { best := rows.foldl (stepRow d) st.best,
          errs := st.errs,
          fetched := fun x => if x = d then st.fetched d + rows.length else st.fetched x }

/-- The whole fetch loop (topn.py lines 255-286): distances in sorted
order, seasons ascending in the normalized range. -/
def aggregate (fetch : Int → Nat → Nat → Except String (List ResultEntry))
    (ac : String) (distances : List Nat) (s e : Int) (n : Nat) : AggState :=
  (sortNat distances).foldl
    (fun st d =>
      (seasonList (min s e) (max s e)).foldl
        (fun st2 se => processCell fetch ac n st2 d se) st)
    initState

/-- All rows that reach the dedup stage, in processing order. -/
def processedRows (fetch : Int → Nat → Nat → Except String (List ResultEntry))
    (ac : String) (distances : List Nat) (s e : Int) (n : Nat) : List ResultRow :=
  (sortNat distances).flatMap (fun d =>
    (seasonList (min s e) (max s e)).flatMap (cellRows fetch ac n d))

/-- Left fold keeping the current best row, replaced only on a strictly
smaller resolved time. -/
def minFold (p : ResultRow) (g : List ResultRow) : ResultRow :=
  g.foldl (fun b x => if Dec.lt x.time_seconds b.time_seconds then x else b) p

/-- Reference description of the dedup policy: the first row of the list
attaining the minimal resolved time (strict improvement replaces,
ties keep the earlier row). -/
def firstMin : List ResultRow → Option ResultRow
  | [] => none
  | r :: rs => some (minFold r rs)

/-- The processed rows sharing a given dedup key, in processing order. -/
def keyGroup (k : Nat × String) (l : List ResultRow) : List ResultRow :=
  l.filter (fun r => decide (dedupKey r = k))

/-- Python `round(x, 3)` on the exact decimal value: values with at most
three fraction digits are unchanged; otherwise round to three digits,
ties to the even neighbour (banker's rounding). -/
def round3 (d : Dec) : Dec :=
  if d.exp ≤ 3 then d
  else
    let scale := 10 ^ (d.exp - 3)
    let q := d.num / scale
    let r := d.num % scale
    let q2 :=
      if r < scale / 2 then q
      else if scale / 2 < r then q + 1
      else if q % 2 = 0 then q else q + 1
    { num := q2, exp := 3 }

/-- One output record (topn.py lines 304-316). -/
structure OutputRow where
  Rank : Nat
  Age : String
  Distance : Nat
  Date : String
  Event : String
  SkaterName : String
  SkaterId : String
  Time : String
  TimeSeconds : Dec
  deriving DecidableEq

/-- Projection of a retained row to an output record at a given rank:
the `Time` column keeps the original text, `TimeSeconds` is the resolved
time rounded to three decimals. -/
def mkOut (idx : Nat) (r : ResultRow) : OutputRow :=
  { Rank := idx, Age := r.age, Distance := r.distance, Date := r.date,
    Event := r.event, SkaterName := r.skater_name, SkaterId := r.skater_id,
    Time := r.time_str, TimeSeconds := round3 r.time_seconds }

/-- Per-distance summary record (topn.py lines 296-301). -/
structure QuerySummary where
  raw_rows : Nat
  unique_skaters : Nat
  written : Nat
  errors : List String
  deriving DecidableEq

/-- `enumerate(..., start=i)`. -/
def enum1From {α : Type} (i : Nat) : List α → List (Nat × α)
  | [] => []
  | a :: l => (i, a) :: enum1From (i + 1) l

/-- Comparison used by `d_rows.sort(key=lambda r: r.time_seconds)`. -/
def timeLE (a b : ResultRow) : Prop :=
  Dec.le a.time_seconds b.time_seconds

instance : DecidableRel timeLE :=
  fun _ _ => inferInstanceAs (Decidable (Dec.le _ _))

/-- The deduplicated rows of one distance, in dict insertion order
(topn.py line 293). -/
def d_rowsOf (best : DedupMap) (d : Nat) : List ResultRow :=
  (best.filter (fun kv => decide (kv.1.1 = d))).map (fun kv => kv.2)

/-- Those rows sorted ascending by resolved time (stable, like Python's
list sort). -/
def d_rowsSorted (best : DedupMap) (d : Nat) : List ResultRow :=
  List.insertionSort timeLE (d_rowsOf best d)

/-- The output chunk of one distance: the first Top-N sorted rows,
ranked from 1 (topn.py lines 303-316). -/
def chunkOf (best : DedupMap) (top_n : Nat) (d : Nat) : List OutputRow :=
  (enum1From 1 ((d_rowsSorted best d).take top_n)).map (fun p => mkOut p.1 p.2)

/-- All output rows before the final global sort, distances in ascending
order. -/
def outputFor (best : DedupMap) (top_n : Nat) (distances : List Nat) : List OutputRow :=
  (sortNat distances).flatMap (chunkOf best top_n)

/-- The summary entry built for one distance (topn.py lines 296-301). -/
def summEntry (st : AggState) (top_n : Nat) (d : Nat) : QuerySummary :=
  { raw_rows := st.fetched d,
    unique_skaters := (d_rowsOf st.best d).length,
    written := min top_n (d_rowsOf st.best d).length,
    errors := st.errs d }

/-- The summary dict over the sorted distances. -/
def summaryFor (st : AggState) (top_n : Nat) (distances : List Nat) :
    List (Nat × QuerySummary) :=
  (sortNat distances).foldl (fun acc d => dictSet acc d (summEntry st top_n d)) []

/-- Key order of the final global sort (topn.py line 319):
`(int(x["Distance"]), float(x["TimeSeconds"]))` ascending. -/
def outKeyLE (a b : OutputRow) : Prop :=
  a.Distance < b.Distance ∨ (a.Distance = b.Distance ∧ Dec.le a.TimeSeconds b.TimeSeconds)

instance : DecidableRel outKeyLE :=
  fun _ _ => inferInstanceAs (Decidable (_ ∨ _))

/-- Embedding of `run_topn_query` (topn.py lines 208-320).  The network
session is the oracle `fetch` (season, distance, requested max count);
gender, age group and country only select the oracle, so the parsed
age-class pair is not threaded further. -/
def run_topn_query (fetch : Int → Nat → Nat → Except String (List ResultEntry))
    (ageclass : String) (distances : List Nat) (start_season end_season : Int)
    (top_n per_season_top : Nat) :
    Except String (List OutputRow × List (Nat × QuerySummary)) :=
  if distances.isEmpty then .error "distances tyhjä"
  else
    match distances.find? (fun d => !(ALLOWED_DISTANCES.contains d)) with
    | some d => .error ("Ei sallittu matka: " ++ toString d)
    | none =>
        match parse_ageclass ageclass with
        | .error e => .error e
        | .ok _ =>
            let st := aggregate fetch ageclass distances start_season end_season
              (per_season_fetch per_season_top top_n)
            .ok (List.insertionSort outKeyLE (outputFor st.best top_n distances),
              summaryFor st top_n distances)

/-- The dedup map produced by a query with the given parameters (the
aggregation of topn.py lines 250-286, using the effective fetch size of
line 247). -/
def bestOf (fetch : Int → Nat → Nat → Except String (List ResultEntry))
    (ac : String) (distances : List Nat) (s e : Int) (tn ps : Nat) : DedupMap :=
  (aggregate fetch ac distances s e (per_season_fetch ps tn)).best

/-- Half-even rounding of a rational to an integer: the reference
behaviour of Python `round` at an exact tie, ordinary nearest-integer
rounding otherwise. -/
def rheQ (q : ℚ) : ℤ :=
  if q - ⌊q⌋ = 1 / 2 then (if 2 ∣ ⌊q⌋ then ⌊q⌋ else ⌊q⌋ + 1) else round q

section Fixtures

/-- Placeholder row used as the default of list lookups in concrete
statements. -/
def defRow : ResultRow :=
  { age := "", distance := 0, date := "", event := "", skater_name := "",
    skater_id := "", time_str := "", time_seconds := { num := 0, exp := 0 } }

/-- Concrete skater whose identifier is itself a `name:`-shaped string. -/
def skIdC6 : SkaterEl :=
  { id := some "name:john smith", givenname := some "Jane",
    familyname := some "Roe", givennative := none, familynative := none }

/-- Concrete skater with an empty identifier and display name
"John Smith". -/
def skNmC6 : SkaterEl :=
  { id := some "", givenname := some "John",
    familyname := some "Smith", givennative := none, familynative := none }

/-- Concrete result node carrying `skIdC6`. -/
def entIdC6 : ResultEntry :=
  { time := some "37,45", date := some "2020-01-01", event := some "Cup",
    skater := some skIdC6 }

/-- Concrete result node carrying `skNmC6`. -/
def entNmC6 : ResultEntry :=
  { time := some "39,00", date := some "2020-02-02", event := some "Cup",
    skater := some skNmC6 }

/-- Concrete skater with an identifier, appearing in two seasons. -/
def skAfix : SkaterEl :=
  { id := some "123", givenname := some "Maija", familyname := some "Meikäläinen",
    givennative := none, familynative := none }

/-- Concrete skater with an empty identifier. -/
def skBfix : SkaterEl :=
  { id := some "", givenname := some "John", familyname := some "Smith",
    givennative := none, familynative := none }

/-- Season 2020 result of the first skater. -/
def entA : ResultEntry :=
  { time := some "37,45", date := some "2020-01-01", event := some "Cup",
    skater := some skAfix }

/-- Season 2021 improvement of the first skater. -/
def entA2 : ResultEntry :=
  { time := some "36,90", date := some "2021-01-05", event := some "Cup2",
    skater := some skAfix }

/-- Season 2020 result of the second skater. -/
def entB : ResultEntry :=
  { time := some "39,00", date := some "2020-02-02", event := some "Cup",
    skater := some skBfix }

/-- A did-not-start entry: its time text is unparseable. -/
def entDNS : ResultEntry :=
  { time := some "DNS", date := some "2020-02-02", event := some "Cup",
    skater := some skBfix }

/-- Concrete fetch oracle: distance 500 succeeds in 2020 and 2021,
distance 1000 fails in 2020, everything else is empty. -/
def fetchW (s : Int) (d : Nat) (_ : Nat) : Except String (List ResultEntry) :=
  if s = 2020 ∧ d = 500 then .ok [entA, entB, entDNS]
  else if s = 2021 ∧ d = 500 then .ok [entA2]
  else if s = 2020 ∧ d = 1000 then .error "boom"
  else .ok []

/-- The output rows of the concrete query below. -/
def outW : List OutputRow :=
  [{ Rank := 1, Age := "FA2", Distance := 500, Date := "2021-01-05", Event := "Cup2",
     SkaterName := "Maija Meikäläinen", SkaterId := "123", Time := "36,90",
     TimeSeconds := { num := 3690, exp := 2 } },
   { Rank := 2, Age := "FA2", Distance := 500, Date := "2020-02-02", Event := "Cup",
     SkaterName := "John Smith", SkaterId := "", Time := "39,00",
     TimeSeconds := { num := 3900, exp := 2 } }]

/-- The summary map of the concrete query below. -/
def summW : List (Nat × QuerySummary) :=
  [(500, { raw_rows := 3, unique_skaters := 2, written := 2, errors := [] }),
   (1000, { raw_rows := 0, unique_skaters := 0, written := 0,
            errors := ["season=2020: boom"] })]

/-- Concrete extracted row with a nonempty identifier of the shape
`name:...`. -/
def rwAC6 : ResultRow :=
  { age := "FA2", distance := 500, date := "", event := "", skater_name := "Jane Roe",
    skater_id := "name:john smith", time_str := "37,45",
    time_seconds := { num := 3745, exp := 2 } }

/-- Concrete extracted row with an empty identifier, keyed by its
normalized name. -/
def rwBC6 : ResultRow :=
  { age := "FA2", distance := 500, date := "", event := "", skater_name := "John Smith",
    skater_id := "", time_str := "39,00", time_seconds := { num := 3900, exp := 2 } }

/-- Concrete extracted row whose identifier is an ordinary numeric
string. -/
def rwNum : ResultRow :=
  { age := "FA2", distance := 500, date := "", event := "", skater_name := "Maija",
    skater_id := "123", time_str := "37,45", time_seconds := { num := 3745, exp := 2 } }

/-- The row extracted from `entA2`: the season-2021 improvement of
skater 123, retained by the dedup map in the concrete query. -/
def rowA2 : ResultRow :=
  { age := "FA2", distance := 500, date := "2021-01-05", event := "Cup2",
    skater_name := "Maija Meikäläinen", skater_id := "123", time_str := "36,90",
    time_seconds := { num := 3690, exp := 2 } }

/-- Placeholder output row used as the default of list lookups in
concrete statements. -/
def defOut : OutputRow :=
  { Rank := 0, Age := "", Distance := 0, Date := "", Event := "", SkaterName := "",
    SkaterId := "", Time := "", TimeSeconds := { num := 0, exp := 0 } }

end Fixtures

/-! ### Order and rounding lemmas -/

theorem Dec.le_iff (a b : Dec) : Dec.le a b ↔ a.toQ ≤ b.toQ := by
  unfold Dec.le Dec.toQ
  rw [div_le_div_iff (by positivity) (by positivity)]
  constructor
  · intro h
    exact_mod_cast h
  · intro h
    exact_mod_cast h

theorem Dec.lt_iff (a b : Dec) : Dec.lt a b ↔ a.toQ < b.toQ := by
  unfold Dec.lt Dec.toQ
  rw [div_lt_div_iff (by positivity) (by positivity)]
  constructor
  · intro h
    exact_mod_cast h
  · intro h
    exact_mod_cast h

theorem Dec.leRefl (a : Dec) : Dec.le a a :=
  (Dec.le_iff a a).2 le_rfl

theorem Dec.leTrans {a b c : Dec} (h1 : Dec.le a b) (h2 : Dec.le b c) : Dec.le a c :=
  (Dec.le_iff a c).2 (le_trans ((Dec.le_iff a b).1 h1) ((Dec.le_iff b c).1 h2))

theorem Dec.leTotal (a b : Dec) : Dec.le a b ∨ Dec.le b a := by
  rcases le_total a.toQ b.toQ with h | h
  · exact Or.inl ((Dec.le_iff a b).2 h)
  · exact Or.inr ((Dec.le_iff b a).2 h)

theorem Dec.not_lt_iff (a b : Dec) : ¬ Dec.lt a b ↔ Dec.le b a := by
  rw [Dec.lt_iff, Dec.le_iff, not_lt]

instance : IsTotal ResultRow timeLE :=
  ⟨fun a b => Dec.leTotal a.time_seconds b.time_seconds⟩

instance : IsTrans ResultRow timeLE :=
  ⟨fun _ _ _ h1 h2 => Dec.leTrans h1 h2⟩

instance : IsTotal OutputRow outKeyLE := by
  constructor
  intro a b
  rcases Nat.lt_trichotomy a.Distance b.Distance with h | h | h
  · exact Or.inl (Or.inl h)
  · rcases Dec.leTotal a.TimeSeconds b.TimeSeconds with h2 | h2
    · exact Or.inl (Or.inr ⟨h, h2⟩)
    · exact Or.inr (Or.inr ⟨h.symm, h2⟩)
  · exact Or.inr (Or.inl h)

instance : IsTrans OutputRow outKeyLE := by
  constructor
  intro a b c h1 h2
  rcases h1 with h1 | ⟨h1e, h1le⟩ <;> rcases h2 with h2 | ⟨h2e, h2le⟩
  · exact Or.inl (lt_trans h1 h2)
  · exact Or.inl (h2e ▸ h1)
  · exact Or.inl (h1e ▸ h2)
  · exact Or.inr ⟨h1e.trans h2e, Dec.leTrans h1le h2le⟩

theorem rheQ_intCast (n : ℤ) : rheQ (n : ℚ) = n := by
  unfold rheQ
  rw [Int.floor_intCast, sub_self]
  rw [if_neg (by norm_num), round_intCast]

theorem rheQ_ge_floor (q : ℚ) : ⌊q⌋ ≤ rheQ q := by
  unfold rheQ
  split_ifs with h1 h2
  · exact le_refl _
  · omega
  · rw [round_eq]
    exact Int.floor_mono (by linarith)

theorem rheQ_le_floor_succ (q : ℚ) : rheQ q ≤ ⌊q⌋ + 1 := by
  unfold rheQ
  have hb : ⌊q + 1 / 2⌋ < ⌊q⌋ + 2 := by
    rw [Int.floor_lt]
    push_cast
    have := Int.lt_floor_add_one q
    linarith
  split_ifs with h1 h2
  · omega
  · exact le_refl _
  · rw [round_eq]
    omega

theorem rheQ_mono {x y : ℚ} (h : x ≤ y) : rheQ x ≤ rheQ y := by
  rcases lt_or_le ⌊x⌋ ⌊y⌋ with hf | hf
  · calc rheQ x ≤ ⌊x⌋ + 1 := rheQ_le_floor_succ x
      _ ≤ ⌊y⌋ := by omega
      _ ≤ rheQ y := rheQ_ge_floor y
  · have hfe : ⌊x⌋ = ⌊y⌋ := le_antisymm (Int.floor_mono h) hf
    have hfq : ((⌊x⌋ : ℚ)) = ((⌊y⌋ : ℚ)) := by exact_mod_cast hfe
    have hfr : x - ⌊x⌋ ≤ y - ⌊y⌋ := by
      rw [hfq]
      linarith
    unfold rheQ
    by_cases hx : x - ⌊x⌋ = 1 / 2 <;> by_cases hy : y - ⌊y⌋ = 1 / 2
    · rw [if_pos hx, if_pos hy, hfe]
    · rw [if_pos hx, if_neg hy]
      have hgt : (1 : ℚ) / 2 < y - ⌊y⌋ := lt_of_le_of_ne (by linarith) (Ne.symm hy)
      have hr : (⌊y⌋ + 1 : ℤ) ≤ round y := by
        rw [round_eq, Int.le_floor]
        push_cast
        linarith
      split_ifs <;> omega
    · rw [if_neg hx, if_pos hy]
      have hlt : x - ⌊x⌋ < 1 / 2 := lt_of_le_of_ne (by linarith) hx
      have hr : round x ≤ ⌊x⌋ := by
        rw [round_eq]
        have hb : ⌊x + 1 / 2⌋ < ⌊x⌋ + 1 := by
          rw [Int.floor_lt]
          push_cast
          linarith [Int.floor_le x]
        omega
      split_ifs <;> omega
    · rw [if_neg hx, if_neg hy, round_eq, round_eq]
      exact Int.floor_mono (by linarith)

theorem rheQ_add_fract (n : ℤ) (f : ℚ) (h0 : 0 ≤ f) (h1 : f < 1) :
    rheQ ((n : ℚ) + f) =
      if f < 1 / 2 then n else if 1 / 2 < f then n + 1 else if 2 ∣ n then n else n + 1 := by
  have hfl : ⌊(n : ℚ) + f⌋ = n := by
    rw [Int.floor_int_add]
    have hf0 : ⌊f⌋ = 0 := Int.floor_eq_zero_iff.2 ⟨h0, h1⟩
    omega
  unfold rheQ
  rw [hfl]
  have hfract : (n : ℚ) + f - n = f := by ring
  rw [hfract]
  rcases lt_trichotomy f (1 / 2) with hc | hc | hc
  · rw [if_neg (ne_of_lt hc), if_pos hc, round_eq]
    rw [show ((n : ℚ) + f + 1 / 2) = (n : ℚ) + (f + 1 / 2) by ring, Int.floor_int_add]
    have hz : ⌊f + 1 / 2⌋ = 0 := Int.floor_eq_zero_iff.2 ⟨by linarith, by linarith⟩
    omega
  · rw [if_pos hc, if_neg (not_lt.2 (le_of_eq hc.symm)), if_neg (not_lt.2 (le_of_eq hc))]
  · rw [if_neg (ne_of_gt hc), if_neg (not_lt.2 (le_of_lt hc)), if_pos hc, round_eq]
    rw [show ((n : ℚ) + f + 1 / 2) = (n : ℚ) + (f + 1 / 2) by ring, Int.floor_int_add]
    have hz : ⌊f + 1 / 2⌋ = 1 := by
      rw [Int.floor_eq_iff]
      push_cast
      constructor <;> linarith
    omega

theorem round3_toQ (d : Dec) : (round3 d).toQ = (rheQ (d.toQ * 1000) : ℚ) / 1000 := by
  by_cases h : d.exp ≤ 3
  · have hval : round3 d = d := by
      simp only [round3, if_pos h]
    rw [hval]
    have h3 : (10 : ℚ) ^ (3 - d.exp) * 10 ^ d.exp = 1000 := by
      rw [← pow_add]
      rw [show 3 - d.exp + d.exp = 3 by omega]
      norm_num
    have hN : d.toQ * 1000 = (((d.num * 10 ^ (3 - d.exp) : ℕ) : ℤ) : ℚ) := by
      unfold Dec.toQ
      push_cast
      rw [← h3]
      field_simp
      ring
    rw [hN, rheQ_intCast]
    unfold Dec.toQ
    push_cast
    rw [← h3]
    field_simp
    ring
  · have hval : round3 d = Dec.mk
        (if d.num % 10 ^ (d.exp - 3) < 10 ^ (d.exp - 3) / 2 then d.num / 10 ^ (d.exp - 3)
          else if 10 ^ (d.exp - 3) / 2 < d.num % 10 ^ (d.exp - 3) then
            d.num / 10 ^ (d.exp - 3) + 1
          else if d.num / 10 ^ (d.exp - 3) % 2 = 0 then d.num / 10 ^ (d.exp - 3)
          else d.num / 10 ^ (d.exp - 3) + 1) 3 := by
      simp only [round3, if_neg h]
    rw [hval]
    have hkpos : 1 ≤ d.exp - 3 := by omega
    set k := d.exp - 3 with hk
    set scale := 10 ^ k with hscale
    have hscpos : 0 < scale := Nat.pos_pow_of_pos k (by norm_num)
    have heven : 2 ∣ scale := by
      rw [hscale]
      exact dvd_pow (by norm_num) (by omega)
    obtain ⟨m, hm⟩ := heven
    set q := d.num / scale with hq
    set r := d.num % scale with hr
    have hdm : scale * q + r = d.num := Nat.div_add_mod d.num scale
    have hrlt : r < scale := Nat.mod_lt _ hscpos
    have hnum : (d.num : ℚ) = (scale : ℚ) * (q : ℚ) + (r : ℚ) := by
      exact_mod_cast hdm.symm
    have hscq : (0 : ℚ) < (scale : ℚ) := by
      exact_mod_cast hscpos
    have h10 : (10 : ℚ) ^ d.exp = (scale : ℚ) * 1000 := by
      have he : d.exp = k + 3 := by omega
      rw [he, hscale]
      push_cast
      rw [pow_add]
      norm_num
    have hx : d.toQ * 1000 = ((q : ℤ) : ℚ) + (r : ℚ) / (scale : ℚ) := by
      unfold Dec.toQ
      rw [h10, hnum]
      push_cast
      field_simp
      ring
    have hfr0 : (0 : ℚ) ≤ (r : ℚ) / (scale : ℚ) := by positivity
    have hfr1 : (r : ℚ) / (scale : ℚ) < 1 := by
      rw [div_lt_one hscq]
      exact_mod_cast hrlt
    rw [hx, rheQ_add_fract (q : ℤ) _ hfr0 hfr1]
    rcases Nat.lt_trichotomy (2 * r) scale with hc | hc | hc
    · have hcq : (r : ℚ) / (scale : ℚ) < 1 / 2 := by
        rw [div_lt_div_iff hscq (by norm_num)]
        have hh : r * 2 < 1 * scale := by omega
        exact_mod_cast hh
      rw [if_pos hcq, if_pos (show r < scale / 2 by omega)]
      unfold Dec.toQ
      push_cast
      norm_num
    · have hcq : (r : ℚ) / (scale : ℚ) = 1 / 2 := by
        rw [div_eq_div_iff (ne_of_gt hscq) (by norm_num)]
        have hh : r * 2 = 1 * scale := by omega
        exact_mod_cast hh
      rw [if_neg (not_lt.2 (le_of_eq hcq.symm)), if_neg (not_lt.2 (le_of_eq hcq))]
      rw [if_neg (show ¬ r < scale / 2 by omega), if_neg (show ¬ scale / 2 < r by omega)]
      by_cases hqe : q % 2 = 0
      · rw [if_pos hqe, if_pos (show (2 : ℤ) ∣ (q : ℤ) by
          exact_mod_cast (Nat.dvd_iff_mod_eq_zero).2 hqe)]
        unfold Dec.toQ
        push_cast
        norm_num
      · rw [if_neg hqe, if_neg (show ¬ (2 : ℤ) ∣ (q : ℤ) by
          intro hdvd
          exact hqe ((Nat.dvd_iff_mod_eq_zero).1 (by exact_mod_cast hdvd)))]
        unfold Dec.toQ
        push_cast
        norm_num
    · have hcq : 1 / 2 < (r : ℚ) / (scale : ℚ) := by
        rw [div_lt_div_iff (by norm_num) hscq]
        have hh : 1 * scale < r * 2 := by omega
        exact_mod_cast hh
      rw [if_neg (not_lt.2 (le_of_lt hcq)), if_pos hcq]
      rw [if_neg (show ¬ r < scale / 2 by omega), if_pos (show scale / 2 < r by omega)]
      unfold Dec.toQ
      push_cast
      norm_num

theorem round3_le {a b : Dec} (h : Dec.le a b) : Dec.le (round3 a) (round3 b) := by
  rw [Dec.le_iff] at h ⊢
  rw [round3_toQ, round3_toQ]
  have hm : rheQ (a.toQ * 1000) ≤ rheQ (b.toQ * 1000) := rheQ_mono (by linarith)
  have hmq : ((rheQ (a.toQ * 1000) : ℤ) : ℚ) ≤ ((rheQ (b.toQ * 1000) : ℤ) : ℚ) := by
    exact_mod_cast hm
  linarith


/-! ### Claims about the Time Parser and the fetch-size formula -/

/-- C4: the Time Parser returns exactly 37.45 for the inputs "37,45" and
"37.45", 70.23 for "1:10,23", 153.86 for "2.33,86" and for "2.33.86",
and the unparseable signal for "DNS", for the empty string, and for
"--". -/
theorem topn_C4_parse_table :
    (parse_time_to_seconds "37,45").map Dec.toQ = some (37.45 : ℚ) ∧
    (parse_time_to_seconds "37.45").map Dec.toQ = some (37.45 : ℚ) ∧
    (parse_time_to_seconds "1:10,23").map Dec.toQ = some (70.23 : ℚ) ∧
    (parse_time_to_seconds "2.33,86").map Dec.toQ = some (153.86 : ℚ) ∧
    (parse_time_to_seconds "2.33.86").map Dec.toQ = some (153.86 : ℚ) ∧
    parse_time_to_seconds "DNS" = none ∧
    parse_time_to_seconds "" = none ∧
    parse_time_to_seconds "--" = none := by
  refine ⟨?_, ?_, ?_, ?_, ?_, by decide, by decide, by decide⟩
  · rw [show parse_time_to_seconds "37,45" = some (Dec.mk 3745 2) from by decide]
    norm_num [Dec.toQ]
  · rw [show parse_time_to_seconds "37.45" = some (Dec.mk 3745 2) from by decide]
    norm_num [Dec.toQ]
  · rw [show parse_time_to_seconds "1:10,23" = some (Dec.mk 7023 2) from by decide]
    norm_num [Dec.toQ]
  · rw [show parse_time_to_seconds "2.33,86" = some (Dec.mk 15386 2) from by decide]
    norm_num [Dec.toQ]
  · rw [show parse_time_to_seconds "2.33.86" = some (Dec.mk 15386 2) from by decide]
    norm_num [Dec.toQ]

/-- C5 counterexample: with buffer 301 and Top-N 1 the code passes 301
to the API Client, which exceeds 300 and differs from the claimed
`min(max(buffer, 3*TopN), 300)`; only the `TopN*3` term is capped. -/
theorem topn_C5_cex :
    per_season_fetch 301 1 = 301 ∧ ¬ per_season_fetch 301 1 ≤ 300 ∧
      per_season_fetch 301 1 ≠ min (max 301 (1 * 3)) 300 := by
  decide

/-- C5 (amended): the effective fetch size is the larger of the buffer
and (Top-N × 3 capped at 300); hence it never exceeds max(buffer, 300),
it equals the claimed min(max(buffer, Top-N × 3), 300) whenever the
buffer is at most 300, and it can exceed 300 only by equalling an
oversized buffer. -/
theorem topn_C5_fetch_size (b n : Nat) :
    per_season_fetch b n ≤ max b 300 ∧
    (b ≤ 300 → per_season_fetch b n = min (max b (n * 3)) 300) ∧
    (300 < per_season_fetch b n → per_season_fetch b n = b) := by
  unfold per_season_fetch
  omega

/-- Witness for the amended C5 at buffer 5, Top-N 100. -/
theorem topn_C5_witness :
    per_season_fetch 5 100 ≤ max 5 300 ∧ 5 ≤ 300 ∧
      per_season_fetch 5 100 = min (max 5 (100 * 3)) 300 :=
  ⟨(topn_C5_fetch_size 5 100).1, by decide, (topn_C5_fetch_size 5 100).2.1 (by decide)⟩

/-- C8 counterexample: "3 7,45" is parseable — internal whitespace is
removed (not a tier-match failure). -/
theorem topn_C8_cex : parse_time_to_seconds "3 7,45" ≠ none := by
  decide

/-- C8 (amended): before tier matching the parser strips surrounding
whitespace and quote characters and then removes internal whitespace
entirely, so digit groups separated by internal whitespace are joined
and parsed as if the whitespace were absent: "3 7,45" parses to 37.45
and "1 : 10 , 23" parses to 70.23. -/
theorem topn_C8_whitespace :
    (parse_time_to_seconds "3 7,45").map Dec.toQ = some (37.45 : ℚ) ∧
    (parse_time_to_seconds " \"37,45\" ").map Dec.toQ = some (37.45 : ℚ) ∧
    (parse_time_to_seconds "1 : 10 , 23").map Dec.toQ = some (70.23 : ℚ) := by
  refine ⟨?_, ?_, ?_⟩
  · rw [show parse_time_to_seconds "3 7,45" = some (Dec.mk 3745 2) from by decide]
    norm_num [Dec.toQ]
  · rw [show parse_time_to_seconds " \"37,45\" " = some (Dec.mk 3745 2) from by decide]
    norm_num [Dec.toQ]
  · rw [show parse_time_to_seconds "1 : 10 , 23" = some (Dec.mk 7023 2) from by decide]
    norm_num [Dec.toQ]

/-- C6 counterexample: two extracted rows at distance 500, the first
with the nonempty identifier "name:john smith", the second with an
empty identifier and display name "John Smith" — their dedup keys
coincide. -/
theorem topn_C6_cex :
    (extract_rows [entIdC6, entNmC6] "FA2" 500).length = 2 ∧
    pyStrip ((extract_rows [entIdC6, entNmC6] "FA2" 500).getD 0 defRow).skater_id ≠ "" ∧
    pyStrip ((extract_rows [entIdC6, entNmC6] "FA2" 500).getD 1 defRow).skater_id = "" ∧
    dedupKey ((extract_rows [entIdC6, entNmC6] "FA2" 500).getD 0 defRow) =
      dedupKey ((extract_rows [entIdC6, entNmC6] "FA2" 500).getD 1 defRow) := by
  decide

/-- C6 (amended): an identifier-keyed entry and a name-keyed entry at
the same distance cannot collide provided the nonempty identifier does
not itself start with the literal "name:". -/
theorem topn_C6_keys_distinct (rA rB : ResultRow) (d : Nat)
    (hA : pyStrip rA.skater_id ≠ "") (hB : pyStrip rB.skater_id = "")
    (hp : ("name:".data.isPrefixOf (pyStrip rA.skater_id).data) = false) :
    (d, skKeyOf rA) ≠ (d, skKeyOf rB) := by
  intro hEq
  have h2 : skKeyOf rA = skKeyOf rB := congrArg Prod.snd hEq
  simp only [skKeyOf] at h2
  rw [if_neg hA, if_pos hB] at h2
  have h3 : (pyStrip rA.skater_id).data =
      "name:".data ++ (normalize_name rB.skater_name).data := by
    rw [h2, String.data_append]
  rw [h3] at hp
  have h4 : "name:".data.isPrefixOf
      ("name:".data ++ (normalize_name rB.skater_name).data) = true := by
    rw [List.isPrefixOf_iff_prefix]
    exact List.prefix_append _ _
  rw [h4] at hp
  exact absurd hp (by simp)

/-- Witness for the amended C6 at a numeric identifier against a
name-keyed row. -/
theorem topn_C6_witness :
    (pyStrip rwNum.skater_id ≠ "" ∧ pyStrip rwBC6.skater_id = "" ∧
      ("name:".data.isPrefixOf (pyStrip rwNum.skater_id).data) = false) ∧
    (500, skKeyOf rwNum) ≠ (500, skKeyOf rwBC6) :=
  ⟨⟨by decide, by decide, by decide⟩,
    topn_C6_keys_distinct rwNum rwBC6 500 (by decide) (by decide) (by decide)⟩


/-! ### Dictionary lemmas -/

theorem dictGet_cons {K V : Type} [DecidableEq K] (kv : K × V) (m : List (K × V)) (x : K) :
    dictGet (kv :: m) x = if kv.1 = x then some kv.2 else dictGet m x := by
  unfold dictGet
  by_cases h : kv.1 = x
  · rw [List.find?_cons_of_pos _ (by simpa using h), if_pos h]
    rfl
  · rw [List.find?_cons_of_neg _ (by simpa using h), if_neg h]

theorem dictGet_map_replace {K V : Type} [DecidableEq K] (m : List (K × V)) (k : K) (v : V)
    (hm : m.any (fun kv => decide (kv.1 = k)) = true) :
    dictGet (m.map (fun kv => if kv.1 = k then (k, v) else kv)) k = some v := by
  induction m with
  | nil => simp at hm
  | cons kv m ih =>
    rw [List.map_cons]
    by_cases h : kv.1 = k
    · rw [if_pos h, dictGet_cons, if_pos rfl]
    · rw [if_neg h, dictGet_cons, if_neg h]
      apply ih
      rcases List.any_eq_true.1 hm with ⟨x, hx, hpx⟩
      rcases List.mem_cons.1 hx with hx1 | hx2
      · exact absurd (of_decide_eq_true (hx1 ▸ hpx)) h
      · exact List.any_eq_true.2 ⟨x, hx2, hpx⟩

theorem dictGet_map_replace_ne {K V : Type} [DecidableEq K] (m : List (K × V)) (k : K) (v : V)
    (x : K) (hx : x ≠ k) :
    dictGet (m.map (fun kv => if kv.1 = k then (k, v) else kv)) x = dictGet m x := by
  induction m with
  | nil => rfl
  | cons kv m ih =>
    rw [List.map_cons]
    by_cases h : kv.1 = k
    · rw [if_pos h, dictGet_cons, dictGet_cons, if_neg (fun hh => hx hh.symm),
        if_neg (fun hh : kv.1 = x => hx (hh.symm.trans h))]
      exact ih
    · rw [if_neg h, dictGet_cons, dictGet_cons]
      by_cases h2 : kv.1 = x
      · rw [if_pos h2, if_pos h2]
      · rw [if_neg h2, if_neg h2]
        exact ih

theorem dictGet_append_single {K V : Type} [DecidableEq K] (m : List (K × V)) (k : K) (v : V)
    (x : K) (hm : m.any (fun kv => decide (kv.1 = k)) = false) :
    dictGet (m ++ [(k, v)]) x = if x = k then some v else dictGet m x := by
  induction m with
  | nil =>
    rw [List.nil_append, dictGet_cons]
    by_cases h : x = k
    · rw [if_pos h.symm, if_pos h]
    · rw [if_neg (fun hh => h hh.symm), if_neg h]
  | cons kv m ih =>
    have hm2 : m.any (fun kv => decide (kv.1 = k)) = false := by
      rw [List.any_cons] at hm
      exact (Bool.or_eq_false_iff.1 hm).2
    have hk : kv.1 ≠ k := by
      rw [List.any_cons] at hm
      have := (Bool.or_eq_false_iff.1 hm).1
      simpa using this
    rw [List.cons_append, dictGet_cons, dictGet_cons]
    by_cases h2 : kv.1 = x
    · rw [if_pos h2, if_pos h2, if_neg (fun hh : x = k => hk (h2.trans hh))]
    · rw [if_neg h2, if_neg h2]
      exact ih hm2

theorem dictGet_set {K V : Type} [DecidableEq K] (m : List (K × V)) (k : K) (v : V) (x : K) :
    dictGet (dictSet m k v) x = if x = k then some v else dictGet m x := by
  unfold dictSet
  by_cases hm : m.any (fun kv => decide (kv.1 = k)) = true
  · rw [if_pos hm]
    by_cases hx : x = k
    · rw [if_pos hx, hx]
      exact dictGet_map_replace m k v hm
    · rw [if_neg hx]
      exact dictGet_map_replace_ne m k v x hx
  · rw [if_neg hm]
    exact dictGet_append_single m k v x (Bool.not_eq_true _ ▸ hm)

theorem dictSet_forall {K V : Type} [DecidableEq K] {P : K × V → Prop} {m : List (K × V)}
    {k : K} {v : V} (hm : ∀ kv ∈ m, P kv) (hkv : P (k, v)) :
    ∀ kv ∈ dictSet m k v, P kv := by
  intro kv hkvm
  unfold dictSet at hkvm
  split at hkvm
  · rcases List.mem_map.1 hkvm with ⟨x, hx, hfx⟩
    by_cases h : x.1 = k
    · rw [if_pos h] at hfx
      exact hfx ▸ hkv
    · rw [if_neg h] at hfx
      exact hfx ▸ hm x hx
  · rcases List.mem_append.1 hkvm with h | h
    · exact hm kv h
    · rw [List.mem_singleton.1 h]
      exact hkv

theorem dictGet_foldl_set_not_mem {K V : Type} [DecidableEq K] (g : K → V) (l : List K)
    (d : K) (hd : d ∉ l) :
    ∀ acc : List (K × V),
      dictGet (l.foldl (fun a x => dictSet a x (g x)) acc) d = dictGet acc d := by
  induction l with
  | nil => intro acc; rfl
  | cons x l ih =>
    intro acc
    rw [List.foldl_cons, ih (fun h => hd (List.mem_cons_of_mem _ h)) _, dictGet_set,
      if_neg (fun h => hd (by rw [h]; exact List.mem_cons_self x l))]

theorem dictGet_foldl_set_mem {K V : Type} [DecidableEq K] (g : K → V) (l : List K) (d : K) :
    ∀ acc : List (K × V), l.Nodup → d ∈ l →
      dictGet (l.foldl (fun a x => dictSet a x (g x)) acc) d = some (g d) := by
  induction l with
  | nil => intro acc _ hd; exact absurd hd (List.not_mem_nil d)
  | cons x l ih =>
    intro acc hnd hd
    rw [List.foldl_cons]
    rcases List.mem_cons.1 hd with h | h
    · have hnl : d ∉ l := by
        rw [h]
        exact (List.nodup_cons.1 hnd).1
      rw [dictGet_foldl_set_not_mem _ _ _ hnl _, dictGet_set, if_pos h, h]
    · exact ih _ (List.nodup_cons.1 hnd).2 h

/-! ### Fold and enumeration helpers -/

theorem foldl_congr_mem {α β : Type} {f g : β → α → β} {l : List α}
    (h : ∀ a ∈ l, ∀ b, f b a = g b a) : ∀ i, l.foldl f i = l.foldl g i := by
  induction l with
  | nil => intro i; rfl
  | cons a l ih =>
    intro i
    rw [List.foldl_cons, List.foldl_cons, h a (List.mem_cons_self a l)]
    exact ih (fun x hx b => h x (List.mem_cons_of_mem _ hx) b) _

theorem foldl_flatMap {α β γ : Type} (f : γ → β → γ) (g : α → List β) (l : List α) :
    ∀ i, (l.flatMap g).foldl f i = l.foldl (fun acc x => (g x).foldl f acc) i := by
  induction l with
  | nil => intro i; rfl
  | cons a l ih =>
    intro i
    rw [List.flatMap_cons, List.foldl_append, List.foldl_cons]
    exact ih _

theorem enum1From_length {α : Type} (i : Nat) (l : List α) :
    (enum1From i l).length = l.length := by
  induction l generalizing i with
  | nil => rfl
  | cons a l ih =>
    rw [enum1From, List.length_cons, List.length_cons, ih]

theorem enum1From_map_fst {α : Type} (i : Nat) (l : List α) :
    (enum1From i l).map Prod.fst = List.range' i l.length := by
  induction l generalizing i with
  | nil => rfl
  | cons a l ih =>
    rw [enum1From, List.map_cons, List.length_cons, List.range'_succ, ih]

theorem mem_enum1From {α : Type} {p : Nat × α} {l : List α} :
    ∀ {i : Nat}, p ∈ enum1From i l → i ≤ p.1 ∧ p.2 ∈ l := by
  induction l with
  | nil => intro i h; exact absurd h (List.not_mem_nil p)
  | cons a l ih =>
    intro i h
    rw [enum1From, List.mem_cons] at h
    rcases h with h | h
    · rw [h]
      exact ⟨le_refl i, List.mem_cons_self a l⟩
    · rcases ih h with ⟨h1, h2⟩
      exact ⟨by omega, List.mem_cons_of_mem _ h2⟩

theorem enum1From_pairwise {α : Type} {R : α → α → Prop} {l : List α} (h : l.Pairwise R) :
    ∀ i, (enum1From i l).Pairwise (fun p q => p.1 < q.1 ∧ R p.2 q.2) := by
  induction l with
  | nil => intro i; constructor
  | cons a l ih =>
    intro i
    rcases List.pairwise_cons.1 h with ⟨ha, hl⟩
    rw [enum1From]
    rw [List.pairwise_cons]
    constructor
    · intro q hq
      rcases mem_enum1From hq with ⟨h1, h2⟩
      exact ⟨by omega, ha _ h2⟩
    · exact ih hl (i + 1)

/-! ### Extraction facts -/

theorem extract_rows_fields {root : List ResultEntry} {ac : String} {d : Nat}
    {r : ResultRow} (h : r ∈ extract_rows root ac d) : r.distance = d ∧ r.age = ac := by
  unfold extract_rows at h
  rw [List.mem_filterMap] at h
  obtain ⟨res, _, hres⟩ := h
  dsimp only at hres
  split at hres
  · exact absurd hres (by simp)
  · rw [Option.some.injEq] at hres
    rw [← hres]
    exact ⟨rfl, rfl⟩

theorem extract_rows_length (root : List ResultEntry) (ac : String) (d : Nat) :
    (extract_rows root ac d).length =
      root.countP (fun res => (parse_time_to_seconds (pyStrip (res.time.getD ""))).isSome) := by
  induction root with
  | nil => rfl
  | cons res root ih =>
    unfold extract_rows at ih ⊢
    rw [List.filterMap_cons, List.countP_cons]
    dsimp only
    cases hp : parse_time_to_seconds (pyStrip (res.time.getD "")) with
    | none =>
      dsimp only
      simpa using ih
    | some v =>
      dsimp only
      simpa using ih


/-! ### Projections of the aggregation loop -/

theorem stepRow_eq_dedupStep {d : Nat} {row : ResultRow} (h : row.distance = d)
    (m : DedupMap) : stepRow d m row = dedupStep m row := by
  unfold dedupStep
  rw [h]

theorem processCell_best (fetch : Int → Nat → Nat → Except String (List ResultEntry))
    (ac : String) (n : Nat) (st : AggState) (d : Nat) (s : Int) :
    (processCell fetch ac n st d s).best =
      (cellRows fetch ac n d s).foldl dedupStep st.best := by
  unfold processCell cellRows
  cases hf : fetch s d n with
  | error e => rfl
  | ok root =>
    dsimp only
    by_cases hrows : (extract_rows root ac d).isEmpty
    · rw [if_pos hrows]
      rw [List.isEmpty_iff.1 hrows]
      rfl
    · rw [if_neg hrows]
      dsimp only
      exact (foldl_congr_mem
        (fun r hr b => stepRow_eq_dedupStep (extract_rows_fields hr).1 b) _).symm ▸
        foldl_congr_mem
          (fun r hr b => stepRow_eq_dedupStep (extract_rows_fields hr).1 b) st.best

theorem seasons_best (fetch : Int → Nat → Nat → Except String (List ResultEntry))
    (ac : String) (n : Nat) (d : Nat) (seasons : List Int) :
    ∀ st : AggState,
      ((seasons.foldl (fun st2 se => processCell fetch ac n st2 d se) st).best) =
        (seasons.flatMap (cellRows fetch ac n d)).foldl dedupStep st.best := by
  induction seasons with
  | nil => intro st; rfl
  | cons s seasons ih =>
    intro st
    rw [List.foldl_cons, List.flatMap_cons, List.foldl_append, ih, processCell_best]

theorem aggregate_best (fetch : Int → Nat → Nat → Except String (List ResultEntry))
    (ac : String) (distances : List Nat) (s e : Int) (n : Nat) :
    (aggregate fetch ac distances s e n).best =
      (processedRows fetch ac distances s e n).foldl dedupStep [] := by
  unfold aggregate processedRows
  rw [foldl_flatMap]
  have hgen : ∀ (ds : List Nat) (st : AggState),
      ((ds.foldl (fun st2 d =>
        (seasonList (min s e) (max s e)).foldl
          (fun st3 se => processCell fetch ac n st3 d se) st2) st).best) =
      ds.foldl (fun acc d =>
        ((seasonList (min s e) (max s e)).flatMap (cellRows fetch ac n d)).foldl
          dedupStep acc) st.best := by
    intro ds
    induction ds with
    | nil => intro st; rfl
    | cons d ds ih =>
      intro st
      rw [List.foldl_cons, List.foldl_cons, ih, seasons_best]
  exact hgen (sortNat distances) initState

theorem processCell_errs_ne (fetch : Int → Nat → Nat → Except String (List ResultEntry))
    (ac : String) (n : Nat) (st : AggState) (d : Nat) (s : Int) (x : Nat) (hx : x ≠ d) :
    (processCell fetch ac n st d s).errs x = st.errs x := by
  unfold processCell
  cases fetch s d n with
  | error e =>
    dsimp only
    rw [if_neg hx]
  | ok root =>
    dsimp only
    by_cases hrows : (extract_rows root ac d).isEmpty
    · rw [if_pos hrows]
    · rw [if_neg hrows]

theorem processCell_errs_self (fetch : Int → Nat → Nat → Except String (List ResultEntry))
    (ac : String) (n : Nat) (st : AggState) (d : Nat) (s : Int) :
    (processCell fetch ac n st d s).errs d =
      st.errs d ++ (cellErr fetch n d s).toList := by
  unfold processCell cellErr
  cases fetch s d n with
  | error e =>
    dsimp only
    rw [if_pos rfl]
    rfl
  | ok root =>
    dsimp only
    by_cases hrows : (extract_rows root ac d).isEmpty
    · rw [if_pos hrows]
      simp
    · rw [if_neg hrows]
      simp

theorem seasons_errs (fetch : Int → Nat → Nat → Except String (List ResultEntry))
    (ac : String) (n : Nat) (d : Nat) (seasons : List Int) :
    ∀ st : AggState,
      ((seasons.foldl (fun st2 se => processCell fetch ac n st2 d se) st).errs d) =
        st.errs d ++ seasons.filterMap (cellErr fetch n d) := by
  induction seasons with
  | nil => intro st; simp
  | cons s seasons ih =>
    intro st
    rw [List.foldl_cons, ih, processCell_errs_self]
    cases hc : cellErr fetch n d s with
    | none =>
      rw [List.filterMap_cons_none hc]
      simp
    | some msg =>
      rw [List.filterMap_cons_some hc]
      simp

theorem seasons_errs_ne (fetch : Int → Nat → Nat → Except String (List ResultEntry))
    (ac : String) (n : Nat) (d : Nat) (x : Nat) (hx : x ≠ d) (seasons : List Int) :
    ∀ st : AggState,
      ((seasons.foldl (fun st2 se => processCell fetch ac n st2 d se) st).errs x) =
        st.errs x := by
  induction seasons with
  | nil => intro st; rfl
  | cons s seasons ih =>
    intro st
    rw [List.foldl_cons, ih, processCell_errs_ne _ _ _ _ _ _ _ hx]

theorem aggregate_errs (fetch : Int → Nat → Nat → Except String (List ResultEntry))
    (ac : String) (distances : List Nat) (s e : Int) (n : Nat) (d : Nat)
    (hnd : distances.Nodup) (hd : d ∈ distances) :
    (aggregate fetch ac distances s e n).errs d =
      (seasonList (min s e) (max s e)).filterMap (cellErr fetch n d) := by
  unfold aggregate
  have hnd2 : (sortNat distances).Nodup :=
    (List.perm_insertionSort _ distances).symm.nodup hnd
  have hd2 : d ∈ sortNat distances :=
    ((List.perm_insertionSort _ distances).mem_iff).2 hd
  have hgen : ∀ (ds : List Nat), ds.Nodup → ∀ st : AggState,
      (d ∈ ds →
        ((ds.foldl (fun st2 dd =>
          (seasonList (min s e) (max s e)).foldl
            (fun st3 se => processCell fetch ac n st3 dd se) st2) st).errs d) =
          st.errs d ++ (seasonList (min s e) (max s e)).filterMap (cellErr fetch n d)) ∧
      (d ∉ ds →
        ((ds.foldl (fun st2 dd =>
          (seasonList (min s e) (max s e)).foldl
            (fun st3 se => processCell fetch ac n st3 dd se) st2) st).errs d) =
          st.errs d) := by
    intro ds
    induction ds with
    | nil =>
      intro _ st
      exact ⟨fun h => absurd h (List.not_mem_nil d), fun _ => rfl⟩
    | cons dd ds ih =>
      intro hnd3 st
      constructor
      · intro hmem
        rw [List.foldl_cons]
        rcases List.mem_cons.1 hmem with h | h
        · have hdnotin : d ∉ ds := by
            rw [h]
            exact (List.nodup_cons.1 hnd3).1
          rw [(ih (List.nodup_cons.1 hnd3).2 _).2 hdnotin, h, seasons_errs]
        · have hddne : d ≠ dd := by
            intro hh
            exact (List.nodup_cons.1 hnd3).1 (hh ▸ h)
          rw [(ih (List.nodup_cons.1 hnd3).2 _).1 h,
            seasons_errs_ne _ _ _ _ _ hddne]
      · intro hmem
        rw [List.foldl_cons]
        have h1 : d ∉ ds := fun h => hmem (List.mem_cons_of_mem _ h)
        have h2 : d ≠ dd := fun h => hmem (h ▸ List.mem_cons_self dd ds)
        rw [(ih (List.nodup_cons.1 hnd3).2 _).2 h1, seasons_errs_ne _ _ _ _ _ h2]
  have := (hgen (sortNat distances) hnd2 initState).1 hd2
  rw [this]
  rfl

theorem processCell_fetched_ne (fetch : Int → Nat → Nat → Except String (List ResultEntry))
    (ac : String) (n : Nat) (st : AggState) (d : Nat) (s : Int) (x : Nat) (hx : x ≠ d) :
    (processCell fetch ac n st d s).fetched x = st.fetched x := by
  unfold processCell
  cases fetch s d n with
  | error e => rfl
  | ok root =>
    dsimp only
    by_cases hrows : (extract_rows root ac d).isEmpty
    · rw [if_pos hrows]
    · rw [if_neg hrows]
      dsimp only
      rw [if_neg hx]

theorem processCell_fetched_self (fetch : Int → Nat → Nat → Except String (List ResultEntry))
    (ac : String) (n : Nat) (st : AggState) (d : Nat) (s : Int) :
    (processCell fetch ac n st d s).fetched d =
      st.fetched d + (cellRows fetch ac n d s).length := by
  unfold processCell cellRows
  cases fetch s d n with
  | error e => rfl
  | ok root =>
    dsimp only
    by_cases hrows : (extract_rows root ac d).isEmpty
    · rw [if_pos hrows]
      rw [List.isEmpty_iff.1 hrows]
      rfl
    · rw [if_neg hrows]
      dsimp only
      rw [if_pos rfl]

theorem seasons_fetched (fetch : Int → Nat → Nat → Except String (List ResultEntry))
    (ac : String) (n : Nat) (d : Nat) (seasons : List Int) :
    ∀ st : AggState,
      ((seasons.foldl (fun st2 se => processCell fetch ac n st2 d se) st).fetched d) =
        st.fetched d +
          ((seasons.map (fun se => (cellRows fetch ac n d se).length)).sum) := by
  induction seasons with
  | nil => intro st; simp
  | cons s seasons ih =>
    intro st
    rw [List.foldl_cons, ih, processCell_fetched_self, List.map_cons, List.sum_cons]
    omega

theorem seasons_fetched_ne (fetch : Int → Nat → Nat → Except String (List ResultEntry))
    (ac : String) (n : Nat) (d : Nat) (x : Nat) (hx : x ≠ d) (seasons : List Int) :
    ∀ st : AggState,
      ((seasons.foldl (fun st2 se => processCell fetch ac n st2 d se) st).fetched x) =
        st.fetched x := by
  induction seasons with
  | nil => intro st; rfl
  | cons s seasons ih =>
    intro st
    rw [List.foldl_cons, ih, processCell_fetched_ne _ _ _ _ _ _ _ hx]

theorem aggregate_fetched (fetch : Int → Nat → Nat → Except String (List ResultEntry))
    (ac : String) (distances : List Nat) (s e : Int) (n : Nat) (d : Nat)
    (hnd : distances.Nodup) (hd : d ∈ distances) :
    (aggregate fetch ac distances s e n).fetched d =
      ((seasonList (min s e) (max s e)).map
        (fun se => (cellRows fetch ac n d se).length)).sum := by
  unfold aggregate
  have hnd2 : (sortNat distances).Nodup :=
    (List.perm_insertionSort _ distances).symm.nodup hnd
  have hd2 : d ∈ sortNat distances :=
    ((List.perm_insertionSort _ distances).mem_iff).2 hd
  have hgen : ∀ (ds : List Nat), ds.Nodup → ∀ st : AggState,
      (d ∈ ds →
        ((ds.foldl (fun st2 dd =>
          (seasonList (min s e) (max s e)).foldl
            (fun st3 se => processCell fetch ac n st3 dd se) st2) st).fetched d) =
          st.fetched d + ((seasonList (min s e) (max s e)).map
            (fun se => (cellRows fetch ac n d se).length)).sum) ∧
      (d ∉ ds →
        ((ds.foldl (fun st2 dd =>
          (seasonList (min s e) (max s e)).foldl
            (fun st3 se => processCell fetch ac n st3 dd se) st2) st).fetched d) =
          st.fetched d) := by
    intro ds
    induction ds with
    | nil =>
      intro _ st
      exact ⟨fun h => absurd h (List.not_mem_nil d), fun _ => rfl⟩
    | cons dd ds ih =>
      intro hnd3 st
      constructor
      · intro hmem
        rw [List.foldl_cons]
        rcases List.mem_cons.1 hmem with h | h
        · have hdnotin : d ∉ ds := by
            rw [h]
            exact (List.nodup_cons.1 hnd3).1
          rw [(ih (List.nodup_cons.1 hnd3).2 _).2 hdnotin, h, seasons_fetched]
        · have hddne : d ≠ dd := by
            intro hh
            exact (List.nodup_cons.1 hnd3).1 (hh ▸ h)
          rw [(ih (List.nodup_cons.1 hnd3).2 _).1 h,
            seasons_fetched_ne _ _ _ _ _ hddne]
      · intro hmem
        rw [List.foldl_cons]
        have h1 : d ∉ ds := fun h => hmem (List.mem_cons_of_mem _ h)
        have h2 : d ≠ dd := fun h => hmem (h ▸ List.mem_cons_self dd ds)
        rw [(ih (List.nodup_cons.1 hnd3).2 _).2 h1, seasons_fetched_ne _ _ _ _ _ h2]
  have := (hgen (sortNat distances) hnd2 initState).1 hd2
  rw [this]
  simp [initState]


/-! ### The dedup fold and its characterization -/

theorem dedupStep_get_self (m : DedupMap) (row : ResultRow) :
    dictGet (dedupStep m row) (dedupKey row) =
      some (match dictGet m (dedupKey row) with
        | none => row
        | some prev =>
            if Dec.lt row.time_seconds prev.time_seconds then row else prev) := by
  simp only [dedupStep, stepRow, dedupKey]
  cases hg : dictGet m (row.distance, skKeyOf row) with
  | none =>
    dsimp only
    rw [dictGet_set, if_pos rfl]
  | some prev =>
    dsimp only
    by_cases hlt : Dec.lt row.time_seconds prev.time_seconds
    · rw [if_pos hlt, dictGet_set, if_pos rfl, if_pos hlt]
    · rw [if_neg hlt, hg, if_neg hlt]

theorem dedupStep_get_ne (m : DedupMap) (row : ResultRow) (k : Nat × String)
    (hk : k ≠ dedupKey row) :
    dictGet (dedupStep m row) k = dictGet m k := by
  have hk2 : k ≠ (row.distance, skKeyOf row) := hk
  simp only [dedupStep, stepRow]
  cases hg : dictGet m (row.distance, skKeyOf row) with
  | none =>
    dsimp only
    rw [dictGet_set, if_neg hk2]
  | some prev =>
    dsimp only
    by_cases hlt : Dec.lt row.time_seconds prev.time_seconds
    · rw [if_pos hlt, dictGet_set, if_neg hk2]
    · rw [if_neg hlt]

theorem minFold_cons (p x : ResultRow) (g : List ResultRow) :
    minFold p (x :: g) =
      minFold (if Dec.lt x.time_seconds p.time_seconds then x else p) g := rfl

theorem minFold_le (g : List ResultRow) :
    ∀ p x, x ∈ p :: g → Dec.le (minFold p g).time_seconds x.time_seconds := by
  induction g with
  | nil =>
    intro p x hx
    rw [List.mem_singleton.1 hx]
    exact Dec.leRefl _
  | cons y g ih =>
    intro p x hx
    rw [minFold_cons]
    set p2 := if Dec.lt y.time_seconds p.time_seconds then y else p with hp2
    have hp2p : Dec.le p2.time_seconds p.time_seconds := by
      rw [hp2]
      split_ifs with h
      · exact (Dec.le_iff _ _).2 (le_of_lt ((Dec.lt_iff _ _).1 h))
      · exact Dec.leRefl _
    have hp2y : Dec.le p2.time_seconds y.time_seconds := by
      rw [hp2]
      split_ifs with h
      · exact Dec.leRefl _
      · exact (Dec.not_lt_iff _ _).1 h
    have hmin : Dec.le (minFold p2 g).time_seconds p2.time_seconds :=
      ih p2 p2 (List.mem_cons_self _ _)
    rcases List.mem_cons.1 hx with h | hx2
    · rw [h]
      exact Dec.leTrans hmin hp2p
    · rcases List.mem_cons.1 hx2 with h | h
      · rw [h]
        exact Dec.leTrans hmin hp2y
      · exact ih p2 x (List.mem_cons_of_mem _ h)

theorem minFold_mem (g : List ResultRow) : ∀ p, minFold p g ∈ p :: g := by
  induction g with
  | nil =>
    intro p
    exact List.mem_singleton.2 rfl
  | cons y g ih =>
    intro p
    rw [minFold_cons]
    rcases List.mem_cons.1 (ih (if Dec.lt y.time_seconds p.time_seconds then y else p))
      with h | h
    · rw [h]
      split_ifs with hc
      · exact List.mem_cons_of_mem _ (List.mem_cons_self _ _)
      · exact List.mem_cons_self _ _
    · exact List.mem_cons_of_mem _ (List.mem_cons_of_mem _ h)

theorem minFold_eq_self {g : List ResultRow} {r : ResultRow}
    (h : ∀ x ∈ g, Dec.le r.time_seconds x.time_seconds) : minFold r g = r := by
  induction g with
  | nil => rfl
  | cons y g ih =>
    rw [minFold_cons,
      if_neg ((Dec.not_lt_iff _ _).2 (h y (List.mem_cons_self _ _)))]
    exact ih (fun x hx => h x (List.mem_cons_of_mem _ hx))

theorem keyGroup_cons (k : Nat × String) (r : ResultRow) (l : List ResultRow) :
    keyGroup k (r :: l) =
      if dedupKey r = k then r :: keyGroup k l else keyGroup k l := by
  unfold keyGroup
  by_cases h : dedupKey r = k
  · rw [if_pos h, List.filter_cons_of_pos (by simpa using h)]
  · rw [if_neg h, List.filter_cons_of_neg (by simpa using h)]

theorem foldl_dedupStep_get (stream : List ResultRow) :
    ∀ (m : DedupMap) (k : Nat × String),
      dictGet (stream.foldl dedupStep m) k =
        match dictGet m k with
        | none => firstMin (keyGroup k stream)
        | some p => some (minFold p (keyGroup k stream)) := by
  induction stream with
  | nil =>
    intro m k
    rw [List.foldl_nil]
    cases dictGet m k <;> rfl
  | cons r stream ih =>
    intro m k
    rw [List.foldl_cons, ih (dedupStep m r) k]
    by_cases hk : dedupKey r = k
    · subst hk
      rw [keyGroup_cons, if_pos rfl, dedupStep_get_self]
      cases hg : dictGet m (dedupKey r) with
      | none =>
        dsimp only
        rfl
      | some p =>
        dsimp only
        rw [minFold_cons]
    · rw [keyGroup_cons, if_neg hk, dedupStep_get_ne m r k (fun h => hk h.symm)]

/-! ### Claim C1: the dedup invariant of the Aggregator -/

/-- C1: for every query run and dedup key, the Aggregator's dedup map
retains exactly the first-seen row of minimal resolved time among the
processed rows sharing that key: the retained row's time is ≤ every
other such row's time, a stored row is overwritten only by a strictly
smaller time, and on equal times the earlier row is kept (`firstMin`
replaces only on strict improvement). -/
theorem topn_C1_dedup (fetch : Int → Nat → Nat → Except String (List ResultEntry))
    (ac : String) (distances : List Nat) (s e : Int) (n : Nat) (k : Nat × String) :
    dictGet (aggregate fetch ac distances s e n).best k =
      firstMin (keyGroup k (processedRows fetch ac distances s e n)) ∧
    (∀ r, dictGet (aggregate fetch ac distances s e n).best k = some r →
      r ∈ processedRows fetch ac distances s e n ∧ dedupKey r = k ∧
      ∀ x ∈ processedRows fetch ac distances s e n, dedupKey x = k →
        Dec.le r.time_seconds x.time_seconds) ∧
    (∀ (m : DedupMap) (row : ResultRow),
      dictGet (dedupStep m row) (dedupKey row) =
        some (match dictGet m (dedupKey row) with
          | none => row
          | some prev =>
              if Dec.lt row.time_seconds prev.time_seconds then row else prev)) ∧
    (∀ (g : List ResultRow) (r : ResultRow),
      firstMin (r :: g) = some r ↔
        ∀ x ∈ g, Dec.le r.time_seconds x.time_seconds) := by
  have hchar : dictGet (aggregate fetch ac distances s e n).best k =
      firstMin (keyGroup k (processedRows fetch ac distances s e n)) := by
    rw [aggregate_best, foldl_dedupStep_get]
    rfl
  refine ⟨hchar, ?_, dedupStep_get_self, ?_⟩
  · intro r hr
    rw [hchar] at hr
    cases hgrp : keyGroup k (processedRows fetch ac distances s e n) with
    | nil =>
      rw [hgrp] at hr
      exact absurd hr (by simp [firstMin])
    | cons g0 gs =>
      rw [hgrp] at hr
      unfold firstMin at hr
      rw [Option.some.injEq] at hr
      have hrmem : r ∈ g0 :: gs := hr ▸ minFold_mem gs g0
      have hrgrp : r ∈ keyGroup k (processedRows fetch ac distances s e n) :=
        hgrp ▸ hrmem
      have hrfil := List.mem_filter.1 hrgrp
      refine ⟨hrfil.1, by simpa using hrfil.2, ?_⟩
      intro x hx hkx
      have hxgrp : x ∈ keyGroup k (processedRows fetch ac distances s e n) :=
        List.mem_filter.2 ⟨hx, by simpa using hkx⟩
      rw [hgrp] at hxgrp
      exact hr ▸ minFold_le gs g0 x hxgrp
  · intro g r
    unfold firstMin
    rw [Option.some.injEq]
    constructor
    · intro h x hx
      have := minFold_le g r x (List.mem_cons_of_mem _ hx)
      rw [h] at this
      exact this
    · exact minFold_eq_self

/-- Witness for C1 on the concrete query: the dedup slot of
(500, "123") holds the season-2021 row, which belongs to the processed
stream, carries that key, and has minimal time among its key group. -/
theorem topn_C1_witness :
    dictGet (aggregate fetchW "FA2" [1000, 500] 2021 2020 6).best (500, "123") =
      some rowA2 ∧
    rowA2 ∈ processedRows fetchW "FA2" [1000, 500] 2021 2020 6 ∧
    dedupKey rowA2 = (500, "123") ∧
    ∀ x ∈ processedRows fetchW "FA2" [1000, 500] 2021 2020 6,
      dedupKey x = (500, "123") → Dec.le rowA2.time_seconds x.time_seconds := by
  have h1 : dictGet (aggregate fetchW "FA2" [1000, 500] 2021 2020 6).best
      (500, "123") = some rowA2 := by decide
  have h2 := (topn_C1_dedup fetchW "FA2" [1000, 500] 2021 2020 6 (500, "123")).2.1
    rowA2 h1
  exact ⟨h1, h2.1, h2.2.1, h2.2.2⟩


/-! ### Structure of the output phase -/

theorem best_distance_inv (fetch : Int → Nat → Nat → Except String (List ResultEntry))
    (ac : String) (distances : List Nat) (s e : Int) (n : Nat) :
    ∀ kv ∈ (aggregate fetch ac distances s e n).best, kv.2.distance = kv.1.1 := by
  rw [aggregate_best]
  have hgen : ∀ (l : List ResultRow) (m : DedupMap),
      (∀ kv ∈ m, kv.2.distance = kv.1.1) →
      ∀ kv ∈ l.foldl dedupStep m, kv.2.distance = kv.1.1 := by
    intro l
    induction l with
    | nil => intro m hm; exact hm
    | cons r l ih =>
      intro m hm
      rw [List.foldl_cons]
      apply ih
      simp only [dedupStep, stepRow]
      cases hg : dictGet m (r.distance, skKeyOf r) with
      | none =>
        exact dictSet_forall hm rfl
      | some prev =>
        dsimp only
        split_ifs with hlt
        · exact dictSet_forall hm rfl
        · exact hm
  exact hgen _ [] (fun kv h => absurd h (List.not_mem_nil kv))

theorem d_rowsOf_distance {best : DedupMap} (hinv : ∀ kv ∈ best, kv.2.distance = kv.1.1)
    (d : Nat) : ∀ r ∈ d_rowsOf best d, r.distance = d := by
  intro r hr
  unfold d_rowsOf at hr
  rcases List.mem_map.1 hr with ⟨kv, hkv, hkv2⟩
  have hf := List.mem_filter.1 hkv
  have hd := of_decide_eq_true hf.2
  rw [← hkv2, hinv kv hf.1, hd]

theorem chunkOf_distance {best : DedupMap} (hinv : ∀ kv ∈ best, kv.2.distance = kv.1.1)
    (tn : Nat) (d : Nat) : ∀ o ∈ chunkOf best tn d, o.Distance = d := by
  intro o ho
  unfold chunkOf at ho
  rcases List.mem_map.1 ho with ⟨p, hp, hpo⟩
  have hmem : p.2 ∈ (d_rowsSorted best d).take tn := (mem_enum1From hp).2
  have hmem2 : p.2 ∈ d_rowsSorted best d := List.mem_of_mem_take hmem
  have hmem3 : p.2 ∈ d_rowsOf best d := by
    unfold d_rowsSorted at hmem2
    exact (List.mem_insertionSort _).1 hmem2
  rw [← hpo]
  exact d_rowsOf_distance hinv d p.2 hmem3

theorem chunkOf_pairwise (best : DedupMap) (tn : Nat) (d : Nat) :
    (chunkOf best tn d).Pairwise
      (fun a b => Dec.le a.TimeSeconds b.TimeSeconds ∧ a.Rank < b.Rank) := by
  unfold chunkOf
  have h1 : List.Pairwise timeLE (d_rowsSorted best d) :=
    List.sorted_insertionSort timeLE _
  have h2 : ((d_rowsSorted best d).take tn).Pairwise timeLE :=
    List.Pairwise.sublist (List.take_sublist tn _) h1
  have h3 := enum1From_pairwise h2 1
  rw [List.pairwise_map]
  refine h3.imp (fun hab => ?_)
  exact ⟨round3_le hab.2, hab.1⟩

theorem chunkOf_length (best : DedupMap) (tn : Nat) (d : Nat) :
    (chunkOf best tn d).length = min tn (d_rowsOf best d).length := by
  unfold chunkOf
  rw [List.length_map, enum1From_length, List.length_take]
  unfold d_rowsSorted
  rw [List.length_insertionSort]

theorem chunkOf_map_rank (best : DedupMap) (tn : Nat) (d : Nat) :
    (chunkOf best tn d).map (fun o => o.Rank) =
      List.range' 1 (chunkOf best tn d).length := by
  have hlen : (chunkOf best tn d).length = ((d_rowsSorted best d).take tn).length := by
    unfold chunkOf
    rw [List.length_map, enum1From_length]
  rw [hlen]
  unfold chunkOf
  rw [List.map_map]
  have hcomp : ((fun o : OutputRow => o.Rank) ∘ (fun p : Nat × ResultRow => mkOut p.1 p.2)) =
      Prod.fst := by
    funext p
    rfl
  rw [hcomp, enum1From_map_fst]

theorem outputFor_pairwise {best : DedupMap}
    (hinv : ∀ kv ∈ best, kv.2.distance = kv.1.1) (tn : Nat) (distances : List Nat)
    (hnd : distances.Nodup) :
    (outputFor best tn distances).Pairwise (fun a b =>
      a.Distance < b.Distance ∨
        (a.Distance = b.Distance ∧ Dec.le a.TimeSeconds b.TimeSeconds ∧
          a.Rank < b.Rank)) := by
  unfold outputFor
  have hsortd : (sortNat distances).Pairwise (fun a b => a < b) := by
    have h1 : List.Sorted (fun a b : Nat => a ≤ b) (sortNat distances) :=
      List.sorted_insertionSort _ _
    have h2 : (sortNat distances).Nodup :=
      (List.perm_insertionSort _ distances).symm.nodup hnd
    exact List.Sorted.lt_of_le h1 h2
  have hgen : ∀ (ds : List Nat), ds.Pairwise (fun a b => a < b) →
      (ds.flatMap (chunkOf best tn)).Pairwise (fun a b =>
        a.Distance < b.Distance ∨
          (a.Distance = b.Distance ∧ Dec.le a.TimeSeconds b.TimeSeconds ∧
            a.Rank < b.Rank)) := by
    intro ds
    induction ds with
    | nil => intro _; constructor
    | cons d ds ih =>
      intro hp
      rw [List.flatMap_cons, List.pairwise_append]
      rcases List.pairwise_cons.1 hp with ⟨hd, hds⟩
      refine ⟨?_, ih hds, ?_⟩
      · refine (chunkOf_pairwise best tn d).imp_of_mem (fun ha hb hr => ?_)
        exact Or.inr ⟨by
          rw [chunkOf_distance hinv tn d _ ha, chunkOf_distance hinv tn d _ hb],
          hr.1, hr.2⟩
      · intro a ha b hb
        rcases List.mem_flatMap.1 hb with ⟨d2, hd2, hbchunk⟩
        left
        rw [chunkOf_distance hinv tn d a ha, chunkOf_distance hinv tn d2 b hbchunk]
        exact hd d2 hd2
  exact hgen _ hsortd

theorem outputFor_sorted {best : DedupMap}
    (hinv : ∀ kv ∈ best, kv.2.distance = kv.1.1) (tn : Nat) (distances : List Nat)
    (hnd : distances.Nodup) :
    List.Sorted outKeyLE (outputFor best tn distances) := by
  refine (outputFor_pairwise hinv tn distances hnd).imp (fun h => ?_)
  exact h.elim (fun h1 => Or.inl h1) (fun h2 => Or.inr ⟨h2.1, h2.2.1⟩)

theorem outputFor_filter {best : DedupMap}
    (hinv : ∀ kv ∈ best, kv.2.distance = kv.1.1) (tn : Nat) (distances : List Nat)
    (hnd : distances.Nodup) (d : Nat) (hd : d ∈ distances) :
    (outputFor best tn distances).filter (fun o => decide (o.Distance = d)) =
      chunkOf best tn d := by
  unfold outputFor
  have hnd2 : (sortNat distances).Nodup :=
    (List.perm_insertionSort _ distances).symm.nodup hnd
  have hd2 : d ∈ sortNat distances :=
    (List.perm_insertionSort _ distances).mem_iff.2 hd
  have hgen : ∀ ds : List Nat, ds.Nodup → d ∈ ds →
      (ds.flatMap (chunkOf best tn)).filter (fun o => decide (o.Distance = d)) =
        chunkOf best tn d := by
    intro ds
    induction ds with
    | nil => intro _ h; exact absurd h (List.not_mem_nil d)
    | cons d2 ds ih =>
      intro hnd3 hmem
      rw [List.flatMap_cons, List.filter_append]
      rcases List.mem_cons.1 hmem with h | h
      · have h1 : (chunkOf best tn d2).filter (fun o => decide (o.Distance = d)) =
            chunkOf best tn d2 :=
          List.filter_eq_self.2 (fun o ho => by
            rw [chunkOf_distance hinv tn d2 o ho]
            simp [h])
        have hdnot : d ∉ ds := by
          rw [h]
          exact (List.nodup_cons.1 hnd3).1
        have h2 : (ds.flatMap (chunkOf best tn)).filter
            (fun o => decide (o.Distance = d)) = [] :=
          List.filter_eq_nil_iff.2 (fun o ho => by
            rcases List.mem_flatMap.1 ho with ⟨d3, hd3, hochunk⟩
            have hod := chunkOf_distance hinv tn d3 o hochunk
            simp only [hod, decide_eq_true_eq]
            intro hh
            exact hdnot (hh ▸ hd3))
        rw [h1, h2, List.append_nil, ← h]
      · have hne : d2 ≠ d := by
          intro hh
          exact (List.nodup_cons.1 hnd3).1 (hh ▸ h)
        have h1 : (chunkOf best tn d2).filter (fun o => decide (o.Distance = d)) = [] :=
          List.filter_eq_nil_iff.2 (fun o ho => by
            have hod := chunkOf_distance hinv tn d2 o ho
            simp only [hod, decide_eq_true_eq]
            exact hne)
        rw [h1, List.nil_append, ih (List.nodup_cons.1 hnd3).2 h]
  exact hgen _ hnd2 hd2

theorem summaryFor_get (st : AggState) (tn : Nat) (distances : List Nat) (d : Nat)
    (hnd : distances.Nodup) (hd : d ∈ distances) :
    dictGet (summaryFor st tn distances) d = some (summEntry st tn d) := by
  unfold summaryFor
  exact dictGet_foldl_set_mem (summEntry st tn) (sortNat distances) d []
    ((List.perm_insertionSort _ distances).symm.nodup hnd)
    ((List.perm_insertionSort _ distances).mem_iff.2 hd)

theorem run_ok_elim {fetch : Int → Nat → Nat → Except String (List ResultEntry)}
    {ac : String} {distances : List Nat} {s e : Int} {tn ps : Nat}
    {out : List OutputRow} {summ : List (Nat × QuerySummary)}
    (h : run_topn_query fetch ac distances s e tn ps = .ok (out, summ)) :
    out = List.insertionSort outKeyLE
        (outputFor (aggregate fetch ac distances s e (per_season_fetch ps tn)).best
          tn distances) ∧
    summ = summaryFor (aggregate fetch ac distances s e (per_season_fetch ps tn))
        tn distances := by
  unfold run_topn_query at h
  split at h
  · exact absurd h (by simp)
  · split at h
    · exact absurd h (by simp)
    · split at h
      · exact absurd h (by simp)
      · simp only [Except.ok.injEq, Prod.mk.injEq] at h
        exact ⟨h.1.symm, h.2.symm⟩

theorem run_ok_out {fetch : Int → Nat → Nat → Except String (List ResultEntry)}
    {ac : String} {distances : List Nat} {s e : Int} {tn ps : Nat}
    {out : List OutputRow} {summ : List (Nat × QuerySummary)}
    (h : run_topn_query fetch ac distances s e tn ps = .ok (out, summ))
    (hnd : distances.Nodup) :
    out = outputFor (aggregate fetch ac distances s e (per_season_fetch ps tn)).best
        tn distances := by
  rw [(run_ok_elim h).1]
  exact List.Sorted.insertionSort_eq
    (outputFor_sorted (best_distance_inv fetch ac distances s e _) tn distances hnd)

theorem run_empty (fetch : Int → Nat → Nat → Except String (List ResultEntry))
    (ac : String) (s e : Int) (tn ps : Nat) :
    run_topn_query fetch ac [] s e tn ps = .error "distances tyhjä" := rfl

theorem run_bad_distance (fetch : Int → Nat → Nat → Except String (List ResultEntry))
    (ac : String) (distances : List Nat) (s e : Int) (tn ps : Nat) (d0 : Nat)
    (hne : distances.isEmpty = false)
    (hfind : distances.find? (fun d => !(ALLOWED_DISTANCES.contains d)) = some d0) :
    run_topn_query fetch ac distances s e tn ps =
      .error ("Ei sallittu matka: " ++ toString d0) := by
  unfold run_topn_query
  simp only [hne, Bool.false_eq_true, if_false, hfind]

theorem run_bad_ageclass (fetch : Int → Nat → Nat → Except String (List ResultEntry))
    (ac : String) (distances : List Nat) (s e : Int) (tn ps : Nat) (msg : String)
    (hne : distances.isEmpty = false)
    (hfind : distances.find? (fun d => !(ALLOWED_DISTANCES.contains d)) = none)
    (hac : parse_ageclass ac = .error msg) :
    run_topn_query fetch ac distances s e tn ps = .error msg := by
  unfold run_topn_query
  simp only [hne, Bool.false_eq_true, if_false, hfind, hac]


/-! ### Claims C2, C3, C9, C10, C7 -/

/-- C2: for every distance of a completed query, the output rows of that
distance number exactly min(Top-N, deduplicated-skater count), their
ranks are the contiguous sequence 1..that minimum, their resolved times
are nondecreasing along the ranks, and the summary's written count
equals the same minimum. -/
theorem topn_C2_ranks (fetch : Int → Nat → Nat → Except String (List ResultEntry))
    (ac : String) (distances : List Nat) (s e : Int) (tn ps : Nat)
    (out : List OutputRow) (summ : List (Nat × QuerySummary)) (d : Nat)
    (hrun : run_topn_query fetch ac distances s e tn ps = .ok (out, summ))
    (hnd : distances.Nodup) (hd : d ∈ distances) :
    (out.filter (fun o => decide (o.Distance = d))).length =
      min tn (d_rowsOf (bestOf fetch ac distances s e tn ps) d).length ∧
    (out.filter (fun o => decide (o.Distance = d))).map (fun o => o.Rank) =
      List.range' 1 (out.filter (fun o => decide (o.Distance = d))).length ∧
    (out.filter (fun o => decide (o.Distance = d))).Pairwise
      (fun a b => a.TimeSeconds.toQ ≤ b.TimeSeconds.toQ) ∧
    ∃ qs, dictGet summ d = some qs ∧
      qs.written = min tn (d_rowsOf (bestOf fetch ac distances s e tn ps) d).length ∧
      qs.unique_skaters = (d_rowsOf (bestOf fetch ac distances s e tn ps) d).length := by
  unfold bestOf
  have hinv := best_distance_inv fetch ac distances s e (per_season_fetch ps tn)
  have hfil : out.filter (fun o => decide (o.Distance = d)) =
      chunkOf (aggregate fetch ac distances s e (per_season_fetch ps tn)).best tn d := by
    rw [run_ok_out hrun hnd]
    exact outputFor_filter hinv tn distances hnd d hd
  rw [hfil]
  refine ⟨chunkOf_length _ tn d, chunkOf_map_rank _ tn d, ?_, ?_⟩
  · exact (chunkOf_pairwise _ tn d).imp (fun h => (Dec.le_iff _ _).1 h.1)
  · rw [(run_ok_elim hrun).2, summaryFor_get _ tn distances d hnd hd]
    exact ⟨_, rfl, rfl, rfl⟩

/-- Witness for C2 on the concrete query at distance 500. -/
theorem topn_C2_witness :
    (run_topn_query fetchW "FA2" [1000, 500] 2021 2020 2 5 = .ok (outW, summW) ∧
      ([1000, 500] : List Nat).Nodup ∧ 500 ∈ ([1000, 500] : List Nat)) ∧
    (outW.filter (fun o => decide (o.Distance = 500))).length =
      min 2 (d_rowsOf (bestOf fetchW "FA2" [1000, 500] 2021 2020 2 5) 500).length :=
  ⟨⟨by decide, by decide, by decide⟩,
    (topn_C2_ranks fetchW "FA2" [1000, 500] 2021 2020 2 5 outW summW 500
      (by decide) (by decide) (by decide)).1⟩

/-- C3: the final output list is sorted primarily by distance ascending
and secondarily by resolved time ascending, and within a distance the
ranks appear in increasing order (the final sort does not disturb the
per-distance rank assignment). -/
theorem topn_C3_global_order (fetch : Int → Nat → Nat → Except String (List ResultEntry))
    (ac : String) (distances : List Nat) (s e : Int) (tn ps : Nat)
    (out : List OutputRow) (summ : List (Nat × QuerySummary))
    (hrun : run_topn_query fetch ac distances s e tn ps = .ok (out, summ))
    (hnd : distances.Nodup) :
    out.Pairwise (fun a b =>
      a.Distance < b.Distance ∨
        (a.Distance = b.Distance ∧ a.TimeSeconds.toQ ≤ b.TimeSeconds.toQ ∧
          a.Rank < b.Rank)) := by
  rw [run_ok_out hrun hnd]
  refine (outputFor_pairwise
    (best_distance_inv fetch ac distances s e (per_season_fetch ps tn))
    tn distances hnd).imp (fun h => ?_)
  exact h.elim (fun h1 => Or.inl h1)
    (fun h2 => Or.inr ⟨h2.1, (Dec.le_iff _ _).1 h2.2.1, h2.2.2⟩)

/-- Witness for C3 on the concrete query. -/
theorem topn_C3_witness :
    (run_topn_query fetchW "FA2" [1000, 500] 2021 2020 2 5 = .ok (outW, summW) ∧
      ([1000, 500] : List Nat).Nodup) ∧
    outW.Pairwise (fun a b =>
      a.Distance < b.Distance ∨
        (a.Distance = b.Distance ∧ a.TimeSeconds.toQ ≤ b.TimeSeconds.toQ ∧
          a.Rank < b.Rank)) :=
  ⟨⟨by decide, by decide⟩,
    topn_C3_global_order fetchW "FA2" [1000, 500] 2021 2020 2 5 outW summW
      (by decide) (by decide)⟩

/-- C9: every output row's TimeSeconds is the retained row's resolved
time rounded to three decimals while Time keeps the original text
unchanged, and the final list is sorted by (distance, this rounded
value). -/
theorem topn_C9_rounding (fetch : Int → Nat → Nat → Except String (List ResultEntry))
    (ac : String) (distances : List Nat) (s e : Int) (tn ps : Nat)
    (out : List OutputRow) (summ : List (Nat × QuerySummary))
    (hrun : run_topn_query fetch ac distances s e tn ps = .ok (out, summ))
    (hnd : distances.Nodup) :
    (∀ o ∈ out, ∃ kv ∈ bestOf fetch ac distances s e tn ps,
      o.Time = kv.2.time_str ∧ o.TimeSeconds = round3 kv.2.time_seconds) ∧
    out.Pairwise (fun a b =>
      a.Distance < b.Distance ∨
        (a.Distance = b.Distance ∧ Dec.le a.TimeSeconds b.TimeSeconds)) := by
  unfold bestOf
  constructor
  · intro o ho
    rw [run_ok_out hrun hnd] at ho
    unfold outputFor at ho
    rcases List.mem_flatMap.1 ho with ⟨d, hdmem, hochunk⟩
    unfold chunkOf at hochunk
    rcases List.mem_map.1 hochunk with ⟨p, hp, hpo⟩
    have hmem : p.2 ∈ d_rowsSorted
        (aggregate fetch ac distances s e (per_season_fetch ps tn)).best d :=
      List.mem_of_mem_take (mem_enum1From hp).2
    have hmem2 : p.2 ∈ d_rowsOf
        (aggregate fetch ac distances s e (per_season_fetch ps tn)).best d := by
      unfold d_rowsSorted at hmem
      exact (List.mem_insertionSort _).1 hmem
    unfold d_rowsOf at hmem2
    rcases List.mem_map.1 hmem2 with ⟨kv, hkv, hkv2⟩
    refine ⟨kv, (List.mem_filter.1 hkv).1, ?_, ?_⟩
    · rw [← hpo, hkv2]
      rfl
    · rw [← hpo, hkv2]
      rfl
  · rw [run_ok_out hrun hnd]
    exact outputFor_sorted
      (best_distance_inv fetch ac distances s e (per_season_fetch ps tn))
      tn distances hnd

/-- Witness for C9: the first output row of the concrete query carries
the original time text and the rounded resolved time of its retained
dedup entry. -/
theorem topn_C9_witness :
    (run_topn_query fetchW "FA2" [1000, 500] 2021 2020 2 5 = .ok (outW, summW) ∧
      ([1000, 500] : List Nat).Nodup ∧ outW.getD 0 defOut ∈ outW) ∧
    ∃ kv ∈ bestOf fetchW "FA2" [1000, 500] 2021 2020 2 5,
      (outW.getD 0 defOut).Time = kv.2.time_str ∧
      (outW.getD 0 defOut).TimeSeconds = round3 kv.2.time_seconds :=
  ⟨⟨by decide, by decide, by decide⟩,
    (topn_C9_rounding fetchW "FA2" [1000, 500] 2021 2020 2 5 outW summW
      (by decide) (by decide)).1 (outW.getD 0 defOut) (by decide)⟩

/-- C10: the extracted-row count of any document equals the number of
its result entries with parseable times (never more than the entry
count), the summary's raw_rows is the sum of those counts over the
seasons of the plan (failed cells contribute nothing), and the count can
be strictly smaller than the number of entries the service returned. -/
theorem topn_C10_raw_rows (fetch : Int → Nat → Nat → Except String (List ResultEntry))
    (ac : String) (distances : List Nat) (s e : Int) (tn ps : Nat)
    (out : List OutputRow) (summ : List (Nat × QuerySummary)) (d : Nat)
    (hrun : run_topn_query fetch ac distances s e tn ps = .ok (out, summ))
    (hnd : distances.Nodup) (hd : d ∈ distances) :
    (∀ (root : List ResultEntry) (ac2 : String) (d2 : Nat),
      (extract_rows root ac2 d2).length =
        root.countP
          (fun res => (parse_time_to_seconds (pyStrip (res.time.getD ""))).isSome) ∧
      (extract_rows root ac2 d2).length ≤ root.length) ∧
    (∃ qs, dictGet summ d = some qs ∧
      qs.raw_rows = ((seasonList (min s e) (max s e)).map
        (fun se => (cellRows fetch ac (per_season_fetch ps tn) d se).length)).sum) ∧
    (extract_rows [entDNS, entB] "FA2" 500).length <
      ([entDNS, entB] : List ResultEntry).length := by
  refine ⟨?_, ?_, by decide⟩
  · intro root ac2 d2
    refine ⟨extract_rows_length root ac2 d2, ?_⟩
    rw [extract_rows_length]
    exact List.countP_le_length _
  · rw [(run_ok_elim hrun).2, summaryFor_get _ tn distances d hnd hd]
    refine ⟨_, rfl, ?_⟩
    exact aggregate_fetched fetch ac distances s e (per_season_fetch ps tn) d hnd hd

/-- Witness for C10 on the concrete query at distance 500. -/
theorem topn_C10_witness :
    (run_topn_query fetchW "FA2" [1000, 500] 2021 2020 2 5 = .ok (outW, summW) ∧
      ([1000, 500] : List Nat).Nodup ∧ 500 ∈ ([1000, 500] : List Nat)) ∧
    ∃ qs, dictGet summW 500 = some qs ∧
      qs.raw_rows = ((seasonList (min 2021 2020) (max 2021 2020)).map
        (fun se => (cellRows fetchW "FA2" (per_season_fetch 5 2) 500 se).length)).sum :=
  ⟨⟨by decide, by decide, by decide⟩,
    (topn_C10_raw_rows fetchW "FA2" [1000, 500] 2021 2020 2 5 outW summW 500
      (by decide) (by decide) (by decide)).2.1⟩

/-- C7: an empty distance list, a disallowed distance or a malformed
age-class make the query fail with the corresponding validation error
for every fetch oracle (so before any fetch is consulted); and a failed
(season, distance) cell is recorded in that distance's error list tagged
with the season while the query still returns a result assembled from
the remaining cells — the error list is exactly the season-ordered list
of failed cells over the whole normalized season range. -/
theorem topn_C7_failures :
    (∀ (fetch : Int → Nat → Nat → Except String (List ResultEntry)) (ac : String)
      (s e : Int) (tn ps : Nat),
      run_topn_query fetch ac [] s e tn ps = .error "distances tyhjä") ∧
    (∀ (fetch : Int → Nat → Nat → Except String (List ResultEntry)) (ac : String)
      (distances : List Nat) (s e : Int) (tn ps : Nat) (d0 : Nat),
      distances.find? (fun d => !(ALLOWED_DISTANCES.contains d)) = some d0 →
      run_topn_query fetch ac distances s e tn ps =
        .error ("Ei sallittu matka: " ++ toString d0)) ∧
    (∀ (fetch : Int → Nat → Nat → Except String (List ResultEntry)) (ac : String)
      (distances : List Nat) (s e : Int) (tn ps : Nat) (msg : String),
      distances ≠ [] → (∀ d ∈ distances, d ∈ ALLOWED_DISTANCES) →
      parse_ageclass ac = .error msg →
      run_topn_query fetch ac distances s e tn ps = .error msg) ∧
    (∀ (fetch : Int → Nat → Nat → Except String (List ResultEntry)) (ac : String)
      (distances : List Nat) (s e : Int) (tn ps : Nat) (out : List OutputRow)
      (summ : List (Nat × QuerySummary)) (d : Nat),
      run_topn_query fetch ac distances s e tn ps = .ok (out, summ) →
      distances.Nodup → d ∈ distances →
      ∃ qs, dictGet summ d = some qs ∧
        qs.errors = (seasonList (min s e) (max s e)).filterMap
          (cellErr fetch (per_season_fetch ps tn) d)) := by
  refine ⟨fun fetch ac s e tn ps => run_empty fetch ac s e tn ps, ?_, ?_, ?_⟩
  · intro fetch ac distances s e tn ps d0 hfind
    have hne : distances.isEmpty = false := by
      cases hl : distances with
      | nil =>
        rw [hl] at hfind
        exact absurd hfind (by simp)
      | cons a l => rfl
    exact run_bad_distance fetch ac distances s e tn ps d0 hne hfind
  · intro fetch ac distances s e tn ps msg hne hall hac
    have hne2 : distances.isEmpty = false := by
      cases hl : distances with
      | nil => exact absurd hl hne
      | cons a l => rfl
    have hfind : distances.find? (fun d => !(ALLOWED_DISTANCES.contains d)) = none := by
      rw [List.find?_eq_none]
      intro x hx
      simpa using hall x hx
    exact run_bad_ageclass fetch ac distances s e tn ps msg hne2 hfind hac
  · intro fetch ac distances s e tn ps out summ d hrun hnd hd
    rw [(run_ok_elim hrun).2, summaryFor_get _ tn distances d hnd hd]
    refine ⟨_, rfl, ?_⟩
    exact aggregate_errs fetch ac distances s e (per_season_fetch ps tn) d hnd hd

/-- Witness for C7: the three validation errors at concrete inputs and
the recorded per-season error of the failing (2020, 1000) cell. -/
theorem topn_C7_witness :
    run_topn_query fetchW "FA2" [] 2021 2020 2 5 = .error "distances tyhjä" ∧
    run_topn_query fetchW "FA2" [200] 2021 2020 2 5 =
      .error ("Ei sallittu matka: " ++ toString 200) ∧
    run_topn_query fetchW "XA2" [500] 2021 2020 2 5 =
      .error "Ageclass pitää alkaa M tai F, esim. MB2 tai FA2" ∧
    ∃ qs, dictGet summW 1000 = some qs ∧
      qs.errors = (seasonList (min 2021 2020) (max 2021 2020)).filterMap
        (cellErr fetchW (per_season_fetch 5 2) 1000) :=
  ⟨topn_C7_failures.1 fetchW "FA2" 2021 2020 2 5,
    topn_C7_failures.2.1 fetchW "FA2" [200] 2021 2020 2 5 200 (by decide),
    topn_C7_failures.2.2.1 fetchW "XA2" [500] 2021 2020 2 5
      "Ageclass pitää alkaa M tai F, esim. MB2 tai FA2"
      (by decide) (by decide) (by decide),
    topn_C7_failures.2.2.2 fetchW "FA2" [1000, 500] 2021 2020 2 5 outW summW 1000
      (by decide) (by decide) (by decide)⟩

end Topn
